import Mathlib

/-!
# Thread pool of `utilities/thread_pool`

A shallow embedding of `thread_pool.h`, `thread_pool.cc` and `work_items.h`:
the work-item data model with its move operations, the public methods of
`ThreadPool`, and the worker lambda of `ThreadPool::Initialize` as a small-step
transition function over an explicit pool state.
-/

namespace ThreadPoolModel

/-! ## Data model (`work_items.h`) -/

/-- Modelled from the spec: the CPU scheduling priority classes
(`enum{Low, Normal, High, ...}`); the enumeration `CpuPriority` is declared
outside the three source files. The sources only name `kNormal`. -/
inductive CpuPriority where
  | kIdle
  | kLow
  | kNormal
  | kHigh
  deriving DecidableEq, Repr

/-- Storage-tier tag `Temperature` (declared in `rocksdb/types.h`); an
enumeration over a small integer code, of which the sources only name
`kUnknown`. -/
structure Temperature where
  code : Nat
  deriving DecidableEq, Repr

/-- The enumerator `Temperature::kUnknown`. -/
def Temperature.kUnknown : Temperature := ⟨0⟩

/-- Status value `IOStatus` (declared in `rocksdb/io_status.h`): a code, a
subcode and a message. Code `0` is success. -/
structure IOStatus where
  code : Nat
  subcode : Nat
  state : String
  deriving DecidableEq, Repr

/-- Default-constructed `IOStatus`: success. -/
def IOStatus.OK : IOStatus := ⟨0, 0, ""⟩

/-- A not-found failure status carrying a message. -/
def IOStatus.NotFound (msg : String) : IOStatus := ⟨1, 0, msg⟩

/-- The struct `WorkItemResult` (work_items.h:19-58). -/
structure WorkItemResult where
  size : Nat
  checksum_hex : String
  db_id : String
  db_session_id : String
  io_status : IOStatus
  expected_src_temperature : Temperature
  current_src_temperature : Temperature
  deriving DecidableEq, Repr

/-- The default constructor `WorkItemResult()` (work_items.h:20-23): `size(0)`,
both temperatures `kUnknown`, strings empty, status default-constructed. -/
def WorkItemResult.init : WorkItemResult :=
  { size := 0
    checksum_hex := ""
    db_id := ""
    db_session_id := ""
    io_status := IOStatus.OK
    expected_src_temperature := Temperature.kUnknown
    current_src_temperature := Temperature.kUnknown }

/-- The move assignment `WorkItemResult::operator=(WorkItemResult&&)`
(work_items.h:30-39), statement by statement. Returns the assigned-to object
and the moved-from object; a moved-from string or status is left empty. -/
def WorkItemResult.moveAssign (self o : WorkItemResult) :
    WorkItemResult × WorkItemResult :=
  let self : WorkItemResult := { self with size := o.size }
  let self : WorkItemResult := { self with checksum_hex := o.checksum_hex }
  let o : WorkItemResult := { o with checksum_hex := "" }
  let self : WorkItemResult := { self with db_id := o.db_id }
  let o : WorkItemResult := { o with db_id := "" }
  let self : WorkItemResult := { self with db_session_id := o.db_session_id }
  let o : WorkItemResult := { o with db_session_id := "" }
  let self : WorkItemResult := { self with io_status := o.io_status }
  let o : WorkItemResult := { o with io_status := IOStatus.OK }
  let self : WorkItemResult := { self with expected_src_temperature := o.expected_src_temperature }
  let self : WorkItemResult := { self with current_src_temperature := o.current_src_temperature }
  (self, o)

/-- The move constructor `WorkItemResult(WorkItemResult&& o)` (work_items.h:28):
`*this = std::move(o)` on the member-wise default-initialised object. The
`size` member has no initialiser on this path; it is taken as `0` here and is
overwritten by the assignment. -/
def WorkItemResult.moveCtor (o : WorkItemResult) : WorkItemResult × WorkItemResult :=
  WorkItemResult.moveAssign WorkItemResult.init o

/-- The enumeration `WorkItemType` (work_items.h:60-62). -/
inductive WorkItemType where
  | CopyOrCreate
  deriving DecidableEq, Repr

/-- The writer half `std::promise<WorkItemResult>` held by a work item:
`noState` is a moved-from promise, `detached` a promise with a shared state of
its own to which no future is attached (as left by default construction), and
`attached id` a promise whose future `id` is held by a submitter. -/
inductive Promise where
  | noState
  | detached
  | attached (id : Nat)
  deriving DecidableEq, Repr

/-- The constant `kUnknownFileChecksumFuncName` (declared in
`rocksdb/file_checksum.h`). -/
def kUnknownFileChecksumFuncName : String := "Unknown"

/-- The struct `WorkItem` (work_items.h:67-87). Pointers (`Env*`,
`RateLimiter*`, `Statistics*`) are addresses with `0` for `nullptr`;
`EnvOptions` is an uninterpreted token; a `std::function` is `none` when empty
and `some k` when it holds callable `k`. -/
structure WorkItem where
  src_path : String
  dst_path : String
  src_temperature : Temperature
  dst_temperature : Temperature
  contents : String
  src_env : Nat
  dst_env : Nat
  src_env_options : Nat
  sync : Bool
  rate_limiter : Nat
  size_limit : Nat
  stats : Nat
  result : Promise
  progress_callback : Option Nat
  src_checksum_func_name : String
  src_checksum_hex : String
  db_id : String
  db_session_id : String
  type : WorkItemType
  deriving DecidableEq, Repr

/-- The default constructor `WorkItem()` (work_items.h:88-99). -/
def WorkItem.init : WorkItem :=
  { src_path := ""
    dst_path := ""
    src_temperature := Temperature.kUnknown
    dst_temperature := Temperature.kUnknown
    contents := ""
    src_env := 0
    dst_env := 0
    src_env_options := 0
    sync := false
    rate_limiter := 0
    size_limit := 0
    stats := 0
    result := Promise.detached
    progress_callback := none
    src_checksum_func_name := kUnknownFileChecksumFuncName
    src_checksum_hex := ""
    db_id := ""
    db_session_id := ""
    type := WorkItemType.CopyOrCreate }

/-- The move assignment `WorkItem::operator=(WorkItem&&)` (work_items.h:106-128),
statement by statement and in source order, including the second assignment of
`src_temperature` on line 125. Returns the assigned-to object and the
moved-from object: a moved-from string is empty, a moved-from promise has no
state, a moved-from function is empty; scalars and enumerations are copied. -/
def WorkItem.moveAssign (self o : WorkItem) : WorkItem × WorkItem :=
  let self : WorkItem := { self with src_path := o.src_path }
  let o : WorkItem := { o with src_path := "" }
  let self : WorkItem := { self with dst_path := o.dst_path }
  let o : WorkItem := { o with dst_path := "" }
  let self : WorkItem := { self with src_temperature := o.src_temperature }
  let self : WorkItem := { self with dst_temperature := o.dst_temperature }
  let self : WorkItem := { self with contents := o.contents }
  let o : WorkItem := { o with contents := "" }
  let self : WorkItem := { self with src_env := o.src_env }
  let self : WorkItem := { self with dst_env := o.dst_env }
  let self : WorkItem := { self with src_env_options := o.src_env_options }
  let self : WorkItem := { self with sync := o.sync }
  let self : WorkItem := { self with rate_limiter := o.rate_limiter }
  let self : WorkItem := { self with size_limit := o.size_limit }
  let self : WorkItem := { self with stats := o.stats }
  let self : WorkItem := { self with result := o.result }
  let o : WorkItem := { o with result := Promise.noState }
  let self : WorkItem := { self with progress_callback := o.progress_callback }
  let o : WorkItem := { o with progress_callback := none }
  let self : WorkItem := { self with src_checksum_func_name := o.src_checksum_func_name }
  let o : WorkItem := { o with src_checksum_func_name := "" }
  let self : WorkItem := { self with src_checksum_hex := o.src_checksum_hex }
  let o : WorkItem := { o with src_checksum_hex := "" }
  let self : WorkItem := { self with db_id := o.db_id }
  let o : WorkItem := { o with db_id := "" }
  let self : WorkItem := { self with db_session_id := o.db_session_id }
  let o : WorkItem := { o with db_session_id := "" }
  let self : WorkItem := { self with src_temperature := o.src_temperature }
  let self : WorkItem := { self with type := o.type }
  (self, o)

/-- The move constructor `WorkItem(WorkItem&& o)` (work_items.h:104):
`*this = std::move(o)` on the member-wise default-initialised object. Members
without an initialiser on this path are taken at their `WorkItem()` values;
every one of them is overwritten by the assignment. -/
def WorkItem.moveCtor (o : WorkItem) : WorkItem × WorkItem :=
  WorkItem.moveAssign WorkItem.init o

/-! ## Work channel (`util/channel.h`) -/

/-- Modelled from the spec: the work channel `channel<T>` of `util/channel.h`,
which is not among the sources. An unbounded FIFO queue of items together with
the end-of-stream flag. -/
structure channel (T : Type) where
  buffer_ : List T
  eof_ : Bool

/-- Modelled from the spec: a newly constructed channel of `util/channel.h`
holds no item and has not seen end-of-stream. -/
def channel.init {T : Type} : channel T := ⟨[], false⟩

/-- Modelled from the spec: `write(item)` of `util/channel.h` enqueues the item
behind the items already queued and never blocks the producer. -/
def channel.write {T : Type} (c : channel T) (elem : T) : channel T :=
  { c with buffer_ := c.buffer_ ++ [elem] }

/-- Modelled from the spec: `sendEof()` of `util/channel.h` marks that no
further item will be written; queued items are kept. -/
def channel.sendEof {T : Type} (c : channel T) : channel T :=
  { c with eof_ := true }

/-- What a call of `read` does when it is scheduled: it stays blocked, returns
`false`, or returns `true` with the dequeued element. -/
inductive ReadOutcome (T : Type) where
  | blocked
  | eof
  | item (elem : T) (rest : channel T)

/-- Modelled from the spec: `read(out) -> bool` of `util/channel.h` blocks
until an item is available (the oldest item is dequeued and `true` returned)
or end-of-stream has been signalled and the queue is empty (`false`). -/
def channel.read {T : Type} (c : channel T) : ReadOutcome T :=
  match c.buffer_ with
  | elem :: rest => ReadOutcome.item elem { c with buffer_ := rest }
  | [] => if c.eof_ then ReadOutcome.eof else ReadOutcome.blocked

/-! ## Pool state -/

/-- Control point of a worker thread inside the lambda of
`ThreadPool::Initialize` (thread_pool.cc:37-52): about to call `read` (line 39),
about to load the shared priority (line 40), about to construct `result` and
call `DoWork` (lines 47-49), about to call `set_value` with the local `result`
(line 51), or returned from the lambda. -/
inductive Pc where
  | atRead
  | atPriority
  | atDoWork
  | atSetValue (result : WorkItemResult)
  | exited
  deriving DecidableEq, Repr

/-- A worker thread: its control point and the locals `current_priority` and
`work_item` of the lambda. The remaining fields are history: the ticket of the
item last read into `work_item`, the argument of the last `port::SetCpuPriority`
call made on this thread (`none` before the first call), and for every item
processed so far the priority loaded for it with the `port::SetCpuPriority`
arguments issued for it. -/
structure Worker where
  pc : Pc
  current_priority : CpuPriority
  work_item : WorkItem
  ticket : Nat
  os_priority : Option CpuPriority
  prio_log : List (CpuPriority × List CpuPriority)
  deriving DecidableEq, Repr

/-- History record: worker `worker` obtained submission number `ticket` from
`read`, leaving `item` in its local `work_item`. -/
structure Dequeued where
  worker : Nat
  ticket : Nat
  item : WorkItem
  deriving DecidableEq, Repr

/-- History record: worker `worker` invoked `DoWork` on `item`, holding
submission number `ticket`; `os_priority` is the argument of the last
`port::SetCpuPriority` call on that thread at this moment (`none` if there was
none) and `current_priority` the local of that name. -/
structure Started where
  worker : Nat
  ticket : Nat
  item : WorkItem
  os_priority : Option CpuPriority
  current_priority : CpuPriority
  deriving DecidableEq, Repr

/-- History record: worker `worker` completed `set_value` on `promise` with
`value` for submission number `ticket`. -/
structure Fulfilled where
  worker : Nat
  ticket : Nat
  promise : Promise
  value : WorkItemResult
  deriving DecidableEq, Repr

/-- The class `ThreadPool` (thread_pool.h:16-36): the five data members, with
each queued item paired with its submission number, followed by history:
the arguments of the `AddWorkItem` calls so far in order, the dequeue, `DoWork`
and `set_value` records in order, how many threads the destructor has joined,
and whether `AddWorkItem` was called after the destructor signalled
end-of-stream. -/
structure ThreadPool where
  name_ : String
  work_items_ : channel (Nat × WorkItem)
  threads_ : List Worker
  num_threads_ : Int
  threads_cpu_priority_ : CpuPriority
  submitted : List WorkItem
  dequeued : List Dequeued
  started : List Started
  fulfilled : List Fulfilled
  joined : Nat
  late_submit : Bool

/-! ## Public methods (`thread_pool.cc`) -/

/-- The constructor `ThreadPool(name)` (thread_pool.h:18). The two atomics have
no initialiser; `raw_num_threads` and `raw_priority` stand for whatever they
hold before `Initialize`. -/
def ThreadPool.ctor (name : String) (raw_num_threads : Int)
    (raw_priority : CpuPriority) : ThreadPool :=
  { name_ := name
    work_items_ := channel.init
    threads_ := []
    num_threads_ := raw_num_threads
    threads_cpu_priority_ := raw_priority
    submitted := []
    dequeued := []
    started := []
    fulfilled := []
    joined := 0
    late_submit := false }

/-- The method `ThreadPool::GetCpuPriority` (thread_pool.cc:15): the loaded
value and the pool after the call. -/
def ThreadPool.GetCpuPriority (pool : ThreadPool) : CpuPriority × ThreadPool :=
  (pool.threads_cpu_priority_, pool)

/-- The method `ThreadPool::SetCpuPriority` (thread_pool.cc:17-19): a store to
the shared priority field. -/
def ThreadPool.SetCpuPriority (pool : ThreadPool) (priority : CpuPriority) :
    ThreadPool :=
  { pool with threads_cpu_priority_ := priority }

/-- The method `ThreadPool::AddWorkItem` (thread_pool.cc:21-23): the item is
moved into the channel. Returns the pool and the caller's moved-from
`work_item`. -/
def ThreadPool.AddWorkItem (pool : ThreadPool) (work_item : WorkItem) :
    ThreadPool × WorkItem :=
  let moved := WorkItem.moveCtor work_item
  ({ pool with
      work_items_ := pool.work_items_.write (pool.submitted.length, moved.1)
      submitted := pool.submitted ++ [work_item]
      late_submit := pool.late_submit || pool.work_items_.eof_ },
   moved.2)

/-- Modelled from the spec: `ThreadPool::UpdateMaxThreads` is declared in
thread_pool.h:27 and has no definition in the sources; per the spec it is a
setter of the desired-thread-count field. -/
def ThreadPool.UpdateMaxThreads (pool : ThreadPool) (num_threads : Int) :
    ThreadPool :=
  { pool with num_threads_ := num_threads }

/-- A thread as `emplace_back` starts it (thread_pool.cc:31-38): after naming
itself, which touches no state kept here, it has `current_priority = kNormal`,
a default-constructed `work_item`, and is about to call `read`. -/
def Worker.spawn : Worker :=
  { pc := Pc.atRead
    current_priority := CpuPriority.kNormal
    work_item := WorkItem.init
    ticket := 0
    os_priority := none
    prio_log := [] }

/-- The loop `for (int t = 0; t < num_threads_; t++) threads_.emplace_back(..)`
(thread_pool.cc:30-54), from counter value `t`; `none` when the fuel is used up
before the loop condition fails. -/
def ThreadPool.spawnLoop : Nat → Int → ThreadPool → Option ThreadPool
  | 0, t, pool => if t < pool.num_threads_ then none else some pool
  | fuel + 1, t, pool =>
    if t < pool.num_threads_ then
      ThreadPool.spawnLoop fuel (t + 1)
        { pool with threads_ := pool.threads_ ++ [Worker.spawn] }
    else some pool

/-- The method `ThreadPool::Initialize` (thread_pool.cc:25-55). `none` stands
for the exception `threads_.reserve` throws on a negative count, or for a loop
that outlives its fuel. -/
def ThreadPool.Initialize (pool : ThreadPool) (num_threads : Int)
    (threads_cpu_priority : CpuPriority) : Option ThreadPool :=
  let pool : ThreadPool := { pool with num_threads_ := num_threads }
  let pool : ThreadPool := { pool with threads_cpu_priority_ := threads_cpu_priority }
  if pool.num_threads_ < 0 then none
  else ThreadPool.spawnLoop pool.num_threads_.toNat 0 pool

/-- The call `Initialize(num_threads)` with the priority argument omitted
(thread_pool.h:21-22): the default argument is `CpuPriority::kNormal`. -/
def ThreadPool.InitializeDefault (pool : ThreadPool) (num_threads : Int) :
    Option ThreadPool :=
  pool.Initialize num_threads CpuPriority.kNormal

/-! ## Worker lambda and destructor as transitions -/

/-- One scheduled step of worker `i` (thread_pool.cc:39-52). `DoWork` is the
pure-virtual operation: given the item and the default-constructed result it
returns the populated result; it is taken to return and to leave the item as it
is. `none` when the worker cannot move: it is blocked in `read`, has returned,
or `set_value` throws on a promise without state.
`TEST_SYNC_POINT_CALLBACK` is empty outside test builds. -/
def ThreadPool.workerStep (DoWork : WorkItem → WorkItemResult → WorkItemResult)
    (pool : ThreadPool) (i : Nat) : Option ThreadPool :=
  match pool.threads_[i]? with
  | none => none
  | some w =>
    match w.pc with
    | Pc.exited => none
    | Pc.atRead =>
      match pool.work_items_.read with
      | ReadOutcome.blocked => none
      | ReadOutcome.eof =>
        some { pool with threads_ := pool.threads_.set i { w with pc := Pc.exited } }
      | ReadOutcome.item (t, elem) rest =>
        let work_item := (WorkItem.moveAssign w.work_item elem).1
        some { pool with
          work_items_ := rest
          threads_ := pool.threads_.set i
            { w with pc := Pc.atPriority, work_item := work_item, ticket := t }
          dequeued := pool.dequeued ++ [⟨i, t, work_item⟩] }
    | Pc.atPriority =>
      let priority := pool.threads_cpu_priority_
      if w.current_priority ≠ priority then
        let w1 : Worker :=
          { w with
            pc := Pc.atDoWork
            current_priority := priority
            os_priority := some priority
            prio_log := w.prio_log ++ [(priority, [priority])] }
        some { pool with threads_ := pool.threads_.set i w1 }
      else
        let w1 : Worker :=
          { w with pc := Pc.atDoWork, prio_log := w.prio_log ++ [(priority, [])] }
        some { pool with threads_ := pool.threads_.set i w1 }
    | Pc.atDoWork =>
      let result := DoWork w.work_item WorkItemResult.init
      some { pool with
        threads_ := pool.threads_.set i { w with pc := Pc.atSetValue result }
        started := pool.started ++
          [⟨i, w.ticket, w.work_item, w.os_priority, w.current_priority⟩] }
    | Pc.atSetValue result =>
      if w.work_item.result = Promise.noState then none
      else
        some { pool with
          threads_ := pool.threads_.set i { w with pc := Pc.atRead }
          fulfilled := pool.fulfilled ++
            [⟨i, w.ticket, w.work_item.result, (WorkItemResult.moveCtor result).1⟩] }

/-- The destructor begins (thread_pool.cc:58): `work_items_.sendEof()`. It runs
once. -/
def ThreadPool.destroy (pool : ThreadPool) : Option ThreadPool :=
  if pool.work_items_.eof_ then none
  else some { pool with work_items_ := pool.work_items_.sendEof }

/-- One `thread.join()` of the destructor loop (thread_pool.cc:59-61): the next
thread in `threads_` order is joined once it has returned from its lambda. -/
def ThreadPool.joinNext (pool : ThreadPool) : Option ThreadPool :=
  if pool.work_items_.eof_ then
    match pool.threads_[pool.joined]? with
    | none => none
    | some w =>
      if w.pc = Pc.exited then some { pool with joined := pool.joined + 1 }
      else none
  else none

/-- What can happen next to a pool: a caller invokes a method, a worker thread
is scheduled, or the destructor advances. -/
inductive Action where
  | AddWorkItem (work_item : WorkItem)
  | SetCpuPriority (priority : CpuPriority)
  | UpdateMaxThreads (num_threads : Int)
  | worker (i : Nat)
  | destroy
  | join

/-- One transition of the pool; `none` when the action is not enabled. -/
def ThreadPool.step (DoWork : WorkItem → WorkItemResult → WorkItemResult)
    (pool : ThreadPool) : Action → Option ThreadPool
  | Action.AddWorkItem work_item => some (pool.AddWorkItem work_item).1
  | Action.SetCpuPriority priority => some (pool.SetCpuPriority priority)
  | Action.UpdateMaxThreads num_threads => some (pool.UpdateMaxThreads num_threads)
  | Action.worker i => pool.workerStep DoWork i
  | Action.destroy => pool.destroy
  | Action.join => pool.joinNext

/-- Run a schedule of actions from `pool`; `none` if some action is not enabled
when its turn comes. -/
def ThreadPool.run (DoWork : WorkItem → WorkItemResult → WorkItemResult) :
    ThreadPool → List Action → Option ThreadPool
  | pool, [] => some pool
  | pool, a :: rest =>
    match pool.step DoWork a with
    | none => none
    | some next => ThreadPool.run DoWork next rest

/-! ## Observations on pool states -/

/-- The worker is inside the loop body for the item in `work_item`: it has read
the item and not yet completed `set_value` for it. -/
def Worker.inBody (w : Worker) : Bool :=
  match w.pc with
  | Pc.atPriority => true
  | Pc.atDoWork => true
  | Pc.atSetValue _ => true
  | _ => false

/-- The worker has read the item in `work_item` and not yet invoked `DoWork` on
it. -/
def Worker.beforeDoWork (w : Worker) : Bool :=
  match w.pc with
  | Pc.atPriority => true
  | Pc.atDoWork => true
  | _ => false

/-- Submission number and item of a dequeue record. -/
def Dequeued.key (d : Dequeued) : Nat × WorkItem := (d.ticket, d.item)

/-- Submission number and item of a `DoWork` record. -/
def Started.key (e : Started) : Nat × WorkItem := (e.ticket, e.item)

/-- How many times `DoWork` has been invoked for submission number `t`. -/
def ThreadPool.doWorkCount (pool : ThreadPool) (t : Nat) : Nat :=
  (pool.started.map Started.ticket).count t

/-- How many times `set_value` has completed for submission number `t`. -/
def ThreadPool.fulfilCount (pool : ThreadPool) (t : Nat) : Nat :=
  (pool.fulfilled.map Fulfilled.ticket).count t

/-- Worker number `i` is still inside the loop body for submission number `t`. -/
def ThreadPool.busyWith (pool : ThreadPool) (i t : Nat) : Prop :=
  ∃ w, pool.threads_[i]? = some w ∧ w.inBody = true ∧ w.ticket = t

/-- The priority in force on a thread whose last `port::SetCpuPriority`
argument is `os`: that argument, and `kNormal` (the value the lambda assumes
for a new thread, thread_pool.cc:37) if the setter was never called. -/
def appliedPriority (os : Option CpuPriority) : CpuPriority :=
  os.getD CpuPriority.kNormal

/-- The `port::SetCpuPriority` calls the description of the worker loop
prescribes for a worker that loads the priorities `ps` for its successive
items, the previous one being `prev`: for each item the loaded priority, and
one call with it exactly when it differs from the previous one. -/
def expectedLog (prev : CpuPriority) :
    List CpuPriority → List (CpuPriority × List CpuPriority)
  | [] => []
  | p :: ps => (p, if p ≠ prev then [p] else []) :: expectedLog p ps

/-- The priorities a worker loaded for its successive items. -/
def Worker.loaded (w : Worker) : List CpuPriority := w.prio_log.map Prod.fst

/-- The action is a call of `SetCpuPriority`. -/
def Action.isSetCpuPriority : Action → Bool
  | Action.SetCpuPriority _ => true
  | _ => false

/-- State of a pool on which no method but `Initialize` has run and no thread
has been scheduled yet. -/
structure Pristine (pool : ThreadPool) : Prop where
  buffer : pool.work_items_.buffer_ = []
  eof : pool.work_items_.eof_ = false
  threads : ∀ w ∈ pool.threads_, w = Worker.spawn
  submitted : pool.submitted = []
  dequeued : pool.dequeued = []
  started : pool.started = []
  fulfilled : pool.fulfilled = []
  joined : pool.joined = 0
  late_submit : pool.late_submit = false

/-- The inductive invariant of the pool's transitions. -/
structure Inv (DoWork : WorkItem → WorkItemResult → WorkItemResult)
    (pool : ThreadPool) : Prop where
  fifo : pool.dequeued.map Dequeued.key ++ pool.work_items_.buffer_
      = pool.submitted.enum
  hold : ∀ (i : Nat) (w : Worker), pool.threads_[i]? = some w →
      w.inBody = true → (⟨i, w.ticket, w.work_item⟩ : Dequeued) ∈ pool.dequeued
  started_deq : ∀ e ∈ pool.started,
      (⟨e.worker, e.ticket, e.item⟩ : Dequeued) ∈ pool.dequeued
  started_prio : ∀ e ∈ pool.started,
      appliedPriority e.os_priority = e.current_priority
  fulfilled_deq : ∀ f ∈ pool.fulfilled, ∃ item,
      (⟨f.worker, f.ticket, item⟩ : Dequeued) ∈ pool.dequeued ∧
      f.promise = item.result ∧ f.value = DoWork item WorkItemResult.init
  started_nodup : (pool.started.map Started.ticket).Nodup
  fulfilled_nodup : (pool.fulfilled.map Fulfilled.ticket).Nodup
  pre_fresh : ∀ (i : Nat) (w : Worker), pool.threads_[i]? = some w →
      w.beforeDoWork = true → ∀ e ∈ pool.started, e.ticket ≠ w.ticket
  body_fresh : ∀ (i : Nat) (w : Worker), pool.threads_[i]? = some w →
      w.inBody = true → ∀ f ∈ pool.fulfilled, f.ticket ≠ w.ticket
  set_value : ∀ (i : Nat) (w : Worker) (r : WorkItemResult),
      pool.threads_[i]? = some w → w.pc = Pc.atSetValue r →
      r = DoWork w.work_item WorkItemResult.init
  deq_started : ∀ d ∈ pool.dequeued,
      (∃ e ∈ pool.started, e.ticket = d.ticket) ∨
      (∃ w, pool.threads_[d.worker]? = some w ∧ w.beforeDoWork = true ∧
        w.ticket = d.ticket)
  deq_fulfilled : ∀ d ∈ pool.dequeued,
      (∃ f ∈ pool.fulfilled, f.ticket = d.ticket) ∨
      pool.busyWith d.worker d.ticket
  prio : ∀ (i : Nat) (w : Worker), pool.threads_[i]? = some w →
      appliedPriority w.os_priority = w.current_priority ∧
      w.prio_log = expectedLog CpuPriority.kNormal w.loaded ∧
      w.loaded.getLast?.getD CpuPriority.kNormal = w.current_priority
  exit : pool.late_submit = false →
      ∀ (i : Nat) (w : Worker), pool.threads_[i]? = some w → w.pc = Pc.exited →
      pool.work_items_.eof_ = true ∧ pool.work_items_.buffer_ = []
  joined : ∀ j, j < pool.joined →
      ∃ w, pool.threads_[j]? = some w ∧ w.pc = Pc.exited
  single : ∀ w : Worker, pool.threads_ = [w] →
      pool.started.map Started.key ++
        (if w.beforeDoWork = true then [(w.ticket, w.work_item)] else [])
      = pool.dequeued.map Dequeued.key

/-- What the submitter obtains from `future.get()` once the promise was
fulfilled: the stored value, moved out. -/
def Fulfilled.read (f : Fulfilled) : WorkItemResult :=
  (WorkItemResult.moveCtor f.value).1

/-! ## Sample data -/

/-- A sample operation: reports the item's `size_limit` as size and fails with
not-found on the item's source path. -/
def demoDoWork (work_item : WorkItem) (result : WorkItemResult) : WorkItemResult :=
  { result with
    size := work_item.size_limit
    io_status := IOStatus.NotFound work_item.src_path }

/-- A sample item whose future is number `k`. -/
def demoItem (k : Nat) : WorkItem :=
  { WorkItem.init with
    src_path := "src"
    dst_path := "dst"
    size_limit := k
    result := Promise.attached k }

/-- A pool named "demo" whose atomics hold `0` and `kIdle` before
`Initialize`. -/
def demoRaw : ThreadPool := ThreadPool.ctor "demo" 0 CpuPriority.kIdle

/-- The sample pool after `Initialize(1, kHigh)`. -/
def demoPool0 : ThreadPool :=
  (demoRaw.Initialize 1 CpuPriority.kHigh).getD demoRaw

/-- A sample schedule: two submissions, the single worker processes both, the
destructor signals end-of-stream, the worker returns and is joined. -/
def demoSchedule : List Action :=
  [Action.AddWorkItem (demoItem 1), Action.AddWorkItem (demoItem 2),
   Action.worker 0, Action.worker 0, Action.worker 0, Action.worker 0,
   Action.worker 0, Action.worker 0, Action.worker 0, Action.worker 0,
   Action.destroy, Action.worker 0, Action.join]

/-- The sample pool after the sample schedule. -/
def demoPool : ThreadPool :=
  (ThreadPool.run demoDoWork demoPool0 demoSchedule).getD demoPool0

/-- One earlier submission, which the worker reads. -/
def fifoBefore : List Action :=
  [Action.AddWorkItem (demoItem 9), Action.worker 0]

/-- The sample pool after `fifoBefore`. -/
def fifoMid : ThreadPool :=
  (ThreadPool.run demoDoWork demoPool0 fifoBefore).getD demoPool0

/-- Eleven steps of the worker: the rest of the earlier item and two whole
items. -/
def fifoRest : List Action := List.replicate 11 (Action.worker 0)

/-- The sample pool after `fifoBefore`, two further submissions and
`fifoRest`. -/
def fifoPool : ThreadPool :=
  (ThreadPool.run demoDoWork fifoMid
    ([demoItem 1, demoItem 2].map Action.AddWorkItem ++ fifoRest)).getD fifoMid

/-- Two submissions; the worker reads the first and brings its thread to the
pool's priority. -/
def prioBefore : List Action :=
  [Action.AddWorkItem (demoItem 1), Action.AddWorkItem (demoItem 2),
   Action.worker 0, Action.worker 0]

/-- The sample pool after `prioBefore`. -/
def settlePool : ThreadPool :=
  (ThreadPool.run demoDoWork demoPool0 prioBefore).getD demoPool0

/-- The worker finishes the first item, then reads the second, adjusts its
priority and invokes `DoWork` on it. -/
def prioAfter : List Action :=
  [Action.worker 0, Action.worker 0, Action.worker 0, Action.worker 0,
   Action.worker 0]

/-- The sample pool after `prioBefore`, `SetCpuPriority(kLow)` and
`prioAfter`. -/
def prioPool : ThreadPool :=
  (ThreadPool.run demoDoWork (settlePool.SetCpuPriority CpuPriority.kLow) prioAfter).getD
    settlePool

/-- A schedule with two `UpdateMaxThreads` calls around worker steps. -/
def resizeSchedule : List Action :=
  [Action.AddWorkItem (demoItem 1), Action.UpdateMaxThreads 4, Action.worker 0,
   Action.UpdateMaxThreads 0, Action.worker 0]

/-- The sample pool after `resizeSchedule`. -/
def resizePool : ThreadPool :=
  (ThreadPool.run demoDoWork demoPool0 resizeSchedule).getD demoPool0

/-! ## Auxiliary invariants for the priority claims -/

/-- Holds from the return of `SetCpuPriority(P)` on, as long as no other
`SetCpuPriority` follows; `old` is the dequeue history at that return. The
shared field holds `P`, and every worker about to invoke `DoWork` on an item
not in `old`, and every `DoWork` record of such an item, has
`current_priority = P`. -/
structure PrioSettled (P : CpuPriority) (old : List Dequeued)
    (pool : ThreadPool) : Prop where
  shared : pool.threads_cpu_priority_ = P
  workers : ∀ (i : Nat) (w : Worker), pool.threads_[i]? = some w →
      w.pc = Pc.atDoWork → (∀ d ∈ old, d.ticket ≠ w.ticket) →
      w.current_priority = P
  started : ∀ e ∈ pool.started, (∀ d ∈ old, d.ticket ≠ e.ticket) →
      e.current_priority = P

variable {DoWork : WorkItem → WorkItemResult → WorkItemResult}

theorem WorkItem.moveAssign_item (self o : WorkItem) : (WorkItem.moveAssign self o).1 = o := by
  cases o
  rfl

theorem WorkItemResult.moveAssign_value (self o : WorkItemResult) :
    (WorkItemResult.moveAssign self o).1 = o := by
  cases o
  rfl

theorem set_lookup {α : Type} {l : List α} {i j : Nat} {a b : α}
    (h : (l.set i a)[j]? = some b) :
    (j = i ∧ b = a) ∨ (j ≠ i ∧ l[j]? = some b) := by
  by_cases hij : i = j
  · subst hij
    rw [List.getElem?_set] at h
    simp at h
    exact Or.inl ⟨rfl, h.2.symm⟩
  · rw [List.getElem?_set_ne hij] at h
    exact Or.inr ⟨fun e => hij e.symm, h⟩

theorem lookup_set_self {α : Type} {l : List α} {i : Nat} {a b : α}
    (h : l[i]? = some b) : (l.set i a)[i]? = some a := by
  have hi : i < l.length := by
    rcases List.getElem?_eq_some.1 h with ⟨hlt, _⟩
    exact hlt
  simp [hi]

theorem set_singleton {α : Type} {l : List α} {i : Nat} {a b w : α}
    (hw : l[i]? = some w) (h : l.set i a = [b]) : l = [w] ∧ b = a := by
  have hlen : l.length = 1 := by
    have := congrArg List.length h
    simpa using this
  match l, hlen with
  | [x], _ =>
    have hi : i = 0 := by
      rcases List.getElem?_eq_some.1 hw with ⟨hlt, _⟩
      simp at hlt
      exact hlt
    subst hi
    simp at hw h
    exact ⟨by rw [hw], h.symm⟩

/-- The shapes of an enabled worker step. -/
theorem workerStep_cases {DoWork : WorkItem → WorkItemResult → WorkItemResult}
    {pool pool' : ThreadPool} {i : Nat}
    (h : pool.workerStep DoWork i = some pool') :
    ∃ w, pool.threads_[i]? = some w ∧
      ((w.pc = Pc.atRead ∧ pool.work_items_.buffer_ = [] ∧
          pool.work_items_.eof_ = true ∧
          pool' = { pool with
            threads_ := pool.threads_.set i { w with pc := Pc.exited } }) ∨
       (w.pc = Pc.atRead ∧ ∃ t elem rest,
          pool.work_items_.buffer_ = (t, elem) :: rest ∧
          pool' = { pool with
            work_items_ := { pool.work_items_ with buffer_ := rest }
            threads_ := pool.threads_.set i
              { w with pc := Pc.atPriority, work_item := elem, ticket := t }
            dequeued := pool.dequeued ++ [⟨i, t, elem⟩] }) ∨
       (w.pc = Pc.atPriority ∧ ∃ os log,
          (w.current_priority ≠ pool.threads_cpu_priority_ →
            os = some pool.threads_cpu_priority_) ∧
          (w.current_priority = pool.threads_cpu_priority_ → os = w.os_priority) ∧
          log = w.prio_log ++ [(pool.threads_cpu_priority_,
            if pool.threads_cpu_priority_ ≠ w.current_priority
              then [pool.threads_cpu_priority_] else [])] ∧
          pool' = { pool with
            threads_ := pool.threads_.set i
              { w with
                pc := Pc.atDoWork
                current_priority := pool.threads_cpu_priority_
                os_priority := os
                prio_log := log } }) ∨
       (w.pc = Pc.atDoWork ∧
          pool' = { pool with
            threads_ := pool.threads_.set i
              { w with pc := Pc.atSetValue (DoWork w.work_item WorkItemResult.init) }
            started := pool.started ++
              [⟨i, w.ticket, w.work_item, w.os_priority, w.current_priority⟩] }) ∨
       (∃ r, w.pc = Pc.atSetValue r ∧ w.work_item.result ≠ Promise.noState ∧
          pool' = { pool with
            threads_ := pool.threads_.set i { w with pc := Pc.atRead }
            fulfilled := pool.fulfilled ++
              [⟨i, w.ticket, w.work_item.result, r⟩] })) := by
  unfold ThreadPool.workerStep at h
  cases hw : pool.threads_[i]? with
  | none => simp [hw] at h
  | some w =>
    refine ⟨w, rfl, ?_⟩
    simp only [hw] at h
    cases hpc : w.pc with
    | exited => simp [hpc] at h
    | atRead =>
      simp only [hpc] at h
      unfold channel.read at h
      cases hb : pool.work_items_.buffer_ with
      | nil =>
        simp only [hb] at h
        by_cases he : pool.work_items_.eof_ = true
        · simp [he] at h
          exact Or.inl ⟨rfl, rfl, he, h.symm⟩
        · simp [he] at h
      | cons x rest =>
        obtain ⟨t, elem⟩ := x
        simp only [hb, WorkItem.moveAssign_item] at h
        simp at h
        exact Or.inr (Or.inl ⟨rfl, t, elem, rest, rfl, h.symm⟩)
    | atPriority =>
      simp only [hpc] at h
      by_cases hc : w.current_priority = pool.threads_cpu_priority_
      · simp [hc] at h
        refine Or.inr (Or.inr (Or.inl
          ⟨rfl, w.os_priority, _, fun hne => absurd hc hne, fun _ => rfl, rfl, ?_⟩))
        simp [hc, ← h]
      · simp [hc] at h
        refine Or.inr (Or.inr (Or.inl
          ⟨rfl, some pool.threads_cpu_priority_, _, fun _ => rfl,
            fun he => absurd he hc, rfl, ?_⟩))
        have hc2 : ¬ pool.threads_cpu_priority_ = w.current_priority :=
          fun e => hc e.symm
        simp [hc2, ← h]
    | atDoWork =>
      simp only [hpc] at h
      simp at h
      exact Or.inr (Or.inr (Or.inr (Or.inl ⟨rfl, h.symm⟩)))
    | atSetValue r =>
      simp only [hpc] at h
      by_cases hp : w.work_item.result = Promise.noState
      · simp [hp] at h
      · simp [hp, WorkItemResult.moveCtor, WorkItemResult.moveAssign_value] at h
        exact Or.inr (Or.inr (Or.inr (Or.inr ⟨r, rfl, hp, h.symm⟩)))

theorem Inv.tickets_nodup {pool : ThreadPool} (hI : Inv DoWork pool) :
    (pool.dequeued.map Dequeued.ticket ++
      pool.work_items_.buffer_.map Prod.fst).Nodup := by
  have h := congrArg (List.map Prod.fst) hI.fifo
  rw [List.map_append, List.map_map, List.enum_map_fst] at h
  have h2 : (Prod.fst ∘ Dequeued.key) = Dequeued.ticket := rfl
  rw [h2] at h
  rw [h]
  exact List.nodup_range _

theorem Inv.deq_inj {pool : ThreadPool} (hI : Inv DoWork pool)
    {d1 d2 : Dequeued} (h1 : d1 ∈ pool.dequeued) (h2 : d2 ∈ pool.dequeued)
    (h : d1.ticket = d2.ticket) : d1 = d2 :=
  List.inj_on_of_nodup_map (List.Nodup.of_append_left hI.tickets_nodup) h1 h2 h

theorem Inv.head_fresh {pool : ThreadPool} (hI : Inv DoWork pool)
    {t : Nat} {elem : WorkItem} {rest : List (Nat × WorkItem)}
    (hb : pool.work_items_.buffer_ = (t, elem) :: rest)
    {d : Dequeued} (hd : d ∈ pool.dequeued) : d.ticket ≠ t := by
  have h := hI.tickets_nodup
  rw [hb] at h
  intro e
  have hdis := List.disjoint_of_nodup_append h
  exact hdis (List.mem_map_of_mem Dequeued.ticket hd) (by simp [e])

theorem inv_worker_exit {pool : ThreadPool} (hI : Inv DoWork pool) {i : Nat}
    {w : Worker} (hw : pool.threads_[i]? = some w) (hpc : w.pc = Pc.atRead)
    (hb : pool.work_items_.buffer_ = []) (he : pool.work_items_.eof_ = true) :
    Inv DoWork { pool with
      threads_ := pool.threads_.set i { w with pc := Pc.exited } } := by
  have hnb : w.inBody = false := by simp [Worker.inBody, hpc]
  have hnd : w.beforeDoWork = false := by simp [Worker.beforeDoWork, hpc]
  refine
    { fifo := hI.fifo
      hold := ?_
      started_deq := hI.started_deq
      started_prio := hI.started_prio
      fulfilled_deq := hI.fulfilled_deq
      started_nodup := hI.started_nodup
      fulfilled_nodup := hI.fulfilled_nodup
      pre_fresh := ?_
      body_fresh := ?_
      set_value := ?_
      deq_started := ?_
      deq_fulfilled := ?_
      prio := ?_
      exit := ?_
      joined := ?_
      single := ?_ }
  · intro j w2 h2 hb2
    rcases set_lookup h2 with ⟨_, rfl⟩ | ⟨_, h3⟩
    · simp [Worker.inBody] at hb2
    · exact hI.hold j w2 h3 hb2
  · intro j w2 h2 hb2
    rcases set_lookup h2 with ⟨_, rfl⟩ | ⟨_, h3⟩
    · simp [Worker.beforeDoWork] at hb2
    · exact hI.pre_fresh j w2 h3 hb2
  · intro j w2 h2 hb2
    rcases set_lookup h2 with ⟨_, rfl⟩ | ⟨_, h3⟩
    · simp [Worker.inBody] at hb2
    · exact hI.body_fresh j w2 h3 hb2
  · intro j w2 r h2 hb2
    rcases set_lookup h2 with ⟨_, rfl⟩ | ⟨_, h3⟩
    · simp at hb2
    · exact hI.set_value j w2 r h3 hb2
  · intro d hd
    rcases hI.deq_started d hd with h | ⟨w0, h0, hb0, ht0⟩
    · exact Or.inl h
    · right
      by_cases hdi : d.worker = i
      · rw [hdi, hw] at h0
        cases h0
        simp [hnd] at hb0
      · exact ⟨w0, by simpa [List.getElem?_set_ne (Ne.symm hdi)] using h0, hb0, ht0⟩
  · intro d hd
    rcases hI.deq_fulfilled d hd with h | ⟨w0, h0, hb0, ht0⟩
    · exact Or.inl h
    · right
      by_cases hdi : d.worker = i
      · rw [hdi, hw] at h0
        cases h0
        simp [hnb] at hb0
      · exact ⟨w0, by simpa [List.getElem?_set_ne (Ne.symm hdi)] using h0, hb0, ht0⟩
  · intro j w2 h2
    rcases set_lookup h2 with ⟨_, rfl⟩ | ⟨_, h3⟩
    · exact hI.prio i w hw
    · exact hI.prio j w2 h3
  · intro hl j w2 h2 hx
    rcases set_lookup h2 with ⟨_, rfl⟩ | ⟨_, h3⟩
    · exact ⟨he, hb⟩
    · exact hI.exit hl j w2 h3 hx
  · intro j hj
    obtain ⟨w0, h0, hx0⟩ := hI.joined j hj
    by_cases hji : j = i
    · rw [hji, hw] at h0
      cases h0
      rw [hpc] at hx0
      cases hx0
    · exact ⟨w0, by simpa [List.getElem?_set_ne (Ne.symm hji)] using h0, hx0⟩
  · intro w2 h2
    obtain ⟨hl, rfl⟩ := set_singleton hw h2
    have h := hI.single w hl
    rw [hnd] at h
    simpa [Worker.beforeDoWork] using h

theorem inv_worker_dequeue {pool : ThreadPool} (hI : Inv DoWork pool) {i : Nat}
    {w : Worker} (hw : pool.threads_[i]? = some w) (hpc : w.pc = Pc.atRead)
    {t : Nat} {elem : WorkItem} {rest : List (Nat × WorkItem)}
    (hb : pool.work_items_.buffer_ = (t, elem) :: rest) :
    Inv DoWork { pool with
      work_items_ := { pool.work_items_ with buffer_ := rest }
      threads_ := pool.threads_.set i
        { w with pc := Pc.atPriority, work_item := elem, ticket := t }
      dequeued := pool.dequeued ++ [⟨i, t, elem⟩] } := by
  have hnb : w.inBody = false := by simp [Worker.inBody, hpc]
  have hnd : w.beforeDoWork = false := by simp [Worker.beforeDoWork, hpc]
  have hself := lookup_set_self
    (a := ({ w with pc := Pc.atPriority, work_item := elem, ticket := t } : Worker)) hw
  refine
    { fifo := ?_
      hold := ?_
      started_deq := fun e he => List.mem_append_left _ (hI.started_deq e he)
      started_prio := hI.started_prio
      fulfilled_deq := ?_
      started_nodup := hI.started_nodup
      fulfilled_nodup := hI.fulfilled_nodup
      pre_fresh := ?_
      body_fresh := ?_
      set_value := ?_
      deq_started := ?_
      deq_fulfilled := ?_
      prio := ?_
      exit := ?_
      joined := ?_
      single := ?_ }
  · have h := hI.fifo
    rw [hb] at h
    simpa [Dequeued.key] using h
  · intro j w2 h2 hb2
    rcases set_lookup h2 with ⟨rfl, rfl⟩ | ⟨_, h3⟩
    · simp
    · exact List.mem_append_left _ (hI.hold j w2 h3 hb2)
  · intro f hf
    obtain ⟨item, h1, h2⟩ := hI.fulfilled_deq f hf
    exact ⟨item, List.mem_append_left _ h1, h2⟩
  · intro j w2 h2 hb2 e he
    rcases set_lookup h2 with ⟨_, rfl⟩ | ⟨_, h3⟩
    · exact hI.head_fresh hb (hI.started_deq e he)
    · exact hI.pre_fresh j w2 h3 hb2 e he
  · intro j w2 h2 hb2 f hf
    rcases set_lookup h2 with ⟨_, rfl⟩ | ⟨_, h3⟩
    · obtain ⟨item, h1, _⟩ := hI.fulfilled_deq f hf
      exact hI.head_fresh hb h1
    · exact hI.body_fresh j w2 h3 hb2 f hf
  · intro j w2 r h2 hb2
    rcases set_lookup h2 with ⟨_, rfl⟩ | ⟨_, h3⟩
    · simp at hb2
    · exact hI.set_value j w2 r h3 hb2
  · intro d hd
    rcases List.mem_append.1 hd with hd | hd
    · rcases hI.deq_started d hd with h | ⟨w0, h0, hb0, ht0⟩
      · exact Or.inl h
      · right
        by_cases hdi : d.worker = i
        · rw [hdi, hw] at h0
          cases h0
          simp [hnd] at hb0
        · exact ⟨w0, by simpa [List.getElem?_set_ne (Ne.symm hdi)] using h0, hb0, ht0⟩
    · simp at hd
      subst hd
      exact Or.inr ⟨_, hself, by simp [Worker.beforeDoWork], rfl⟩
  · intro d hd
    rcases List.mem_append.1 hd with hd | hd
    · rcases hI.deq_fulfilled d hd with h | ⟨w0, h0, hb0, ht0⟩
      · exact Or.inl h
      · right
        by_cases hdi : d.worker = i
        · rw [hdi, hw] at h0
          cases h0
          simp [hnb] at hb0
        · exact ⟨w0, by simpa [List.getElem?_set_ne (Ne.symm hdi)] using h0, hb0, ht0⟩
    · simp at hd
      subst hd
      exact Or.inr ⟨_, hself, by simp [Worker.inBody], rfl⟩
  · intro j w2 h2
    rcases set_lookup h2 with ⟨_, rfl⟩ | ⟨_, h3⟩
    · exact hI.prio i w hw
    · exact hI.prio j w2 h3
  · intro hl j w2 h2 hx
    rcases set_lookup h2 with ⟨_, rfl⟩ | ⟨_, h3⟩
    · simp at hx
    · have := (hI.exit hl j w2 h3 hx).2
      rw [hb] at this
      cases this
  · intro j hj
    obtain ⟨w0, h0, hx0⟩ := hI.joined j hj
    by_cases hji : j = i
    · rw [hji, hw] at h0
      cases h0
      rw [hpc] at hx0
      cases hx0
    · exact ⟨w0, by simpa [List.getElem?_set_ne (Ne.symm hji)] using h0, hx0⟩
  · intro w2 h2
    obtain ⟨hl, rfl⟩ := set_singleton hw h2
    have h := hI.single w hl
    rw [hnd] at h
    simp [Worker.beforeDoWork, Dequeued.key] at h ⊢
    exact h

theorem expectedLog_snoc (prev : CpuPriority) (ps : List CpuPriority) (p : CpuPriority) :
    expectedLog prev (ps ++ [p]) =
      expectedLog prev ps ++ [(p, if p ≠ ps.getLast?.getD prev then [p] else [])] := by
  induction ps generalizing prev with
  | nil => simp [expectedLog]
  | cons q qs ih =>
    have h1 : (q :: qs).getLast?.getD prev = qs.getLast?.getD q := by
      rw [List.getLast?_cons]
      rfl
    rw [List.cons_append, expectedLog, expectedLog, ih q, h1, List.cons_append]

theorem inv_worker_priority {pool : ThreadPool} (hI : Inv DoWork pool) {i : Nat}
    {w : Worker} (hw : pool.threads_[i]? = some w) (hpc : w.pc = Pc.atPriority)
    {os : Option CpuPriority} {log : List (CpuPriority × List CpuPriority)}
    (hos1 : w.current_priority ≠ pool.threads_cpu_priority_ →
      os = some pool.threads_cpu_priority_)
    (hos2 : w.current_priority = pool.threads_cpu_priority_ → os = w.os_priority)
    (hlog : log = w.prio_log ++ [(pool.threads_cpu_priority_,
      if pool.threads_cpu_priority_ ≠ w.current_priority
        then [pool.threads_cpu_priority_] else [])]) :
    Inv DoWork { pool with
      threads_ := pool.threads_.set i
        { w with
          pc := Pc.atDoWork
          current_priority := pool.threads_cpu_priority_
          os_priority := os
          prio_log := log } } := by
  have hnb : w.inBody = true := by simp [Worker.inBody, hpc]
  have hnd : w.beforeDoWork = true := by simp [Worker.beforeDoWork, hpc]
  have hself := lookup_set_self
    (a := ({ w with
          pc := Pc.atDoWork
          current_priority := pool.threads_cpu_priority_
          os_priority := os
          prio_log := log } : Worker)) hw
  refine
    { fifo := hI.fifo
      hold := ?_
      started_deq := hI.started_deq
      started_prio := hI.started_prio
      fulfilled_deq := hI.fulfilled_deq
      started_nodup := hI.started_nodup
      fulfilled_nodup := hI.fulfilled_nodup
      pre_fresh := ?_
      body_fresh := ?_
      set_value := ?_
      deq_started := ?_
      deq_fulfilled := ?_
      prio := ?_
      exit := ?_
      joined := ?_
      single := ?_ }
  · intro j w2 h2 hb2
    rcases set_lookup h2 with ⟨rfl, rfl⟩ | ⟨_, h3⟩
    · exact hI.hold j w hw hnb
    · exact hI.hold j w2 h3 hb2
  · intro j w2 h2 hb2
    rcases set_lookup h2 with ⟨rfl, rfl⟩ | ⟨_, h3⟩
    · exact hI.pre_fresh j w hw hnd
    · exact hI.pre_fresh j w2 h3 hb2
  · intro j w2 h2 hb2
    rcases set_lookup h2 with ⟨rfl, rfl⟩ | ⟨_, h3⟩
    · exact hI.body_fresh j w hw hnb
    · exact hI.body_fresh j w2 h3 hb2
  · intro j w2 r h2 hb2
    rcases set_lookup h2 with ⟨_, rfl⟩ | ⟨_, h3⟩
    · simp at hb2
    · exact hI.set_value j w2 r h3 hb2
  · intro d hd
    rcases hI.deq_started d hd with h | ⟨w0, h0, hb0, ht0⟩
    · exact Or.inl h
    · right
      by_cases hdi : d.worker = i
      · rw [hdi, hw] at h0
        cases h0
        rw [hdi]
        exact ⟨_, hself, by simp [Worker.beforeDoWork], ht0⟩
      · exact ⟨w0, by simpa [List.getElem?_set_ne (Ne.symm hdi)] using h0, hb0, ht0⟩
  · intro d hd
    rcases hI.deq_fulfilled d hd with h | ⟨w0, h0, hb0, ht0⟩
    · exact Or.inl h
    · right
      by_cases hdi : d.worker = i
      · rw [hdi, hw] at h0
        cases h0
        rw [hdi]
        exact ⟨_, hself, by simp [Worker.inBody], ht0⟩
      · exact ⟨w0, by simpa [List.getElem?_set_ne (Ne.symm hdi)] using h0, hb0, ht0⟩
  · intro j w2 h2
    rcases set_lookup h2 with ⟨_, rfl⟩ | ⟨_, h3⟩
    · obtain ⟨p1, p2, p3⟩ := hI.prio i w hw
      refine ⟨?_, ?_, ?_⟩
      · by_cases hc : w.current_priority = pool.threads_cpu_priority_
        · simp only [hos2 hc, p1, hc]
        · simp [hos1 hc, appliedPriority]
      · simp only [Worker.loaded, hlog, List.map_append, List.map_cons, List.map_nil]
        rw [expectedLog_snoc]
        simp only [Worker.loaded] at p2 p3
        rw [p3, ← p2]
      · simp [Worker.loaded, hlog]
    · exact hI.prio j w2 h3
  · intro hl j w2 h2 hx
    rcases set_lookup h2 with ⟨_, rfl⟩ | ⟨_, h3⟩
    · simp at hx
    · exact hI.exit hl j w2 h3 hx
  · intro j hj
    obtain ⟨w0, h0, hx0⟩ := hI.joined j hj
    by_cases hji : j = i
    · rw [hji, hw] at h0
      cases h0
      rw [hpc] at hx0
      cases hx0
    · exact ⟨w0, by simpa [List.getElem?_set_ne (Ne.symm hji)] using h0, hx0⟩
  · intro w2 h2
    obtain ⟨hl, rfl⟩ := set_singleton hw h2
    have h := hI.single w hl
    rw [hnd] at h
    simp [Worker.beforeDoWork] at h ⊢
    exact h

theorem Inv.holders_differ {pool : ThreadPool} (hI : Inv DoWork pool) {i j : Nat}
    {w w2 : Worker} (hw : pool.threads_[i]? = some w) (hb : w.inBody = true)
    (hw2 : pool.threads_[j]? = some w2) (hb2 : w2.inBody = true) (hij : j ≠ i) :
    w.ticket ≠ w2.ticket := by
  intro e
  have h := hI.deq_inj (hI.hold i w hw hb) (hI.hold j w2 hw2 hb2) e
  have := congrArg Dequeued.worker h
  exact hij this.symm

theorem Worker.inBody_of_beforeDoWork {w : Worker} (h : w.beforeDoWork = true) :
    w.inBody = true := by
  unfold Worker.beforeDoWork at h
  unfold Worker.inBody
  split at h <;> simp_all

theorem inv_worker_doWork {pool : ThreadPool} (hI : Inv DoWork pool) {i : Nat}
    {w : Worker} (hw : pool.threads_[i]? = some w) (hpc : w.pc = Pc.atDoWork) :
    Inv DoWork { pool with
      threads_ := pool.threads_.set i
        { w with pc := Pc.atSetValue (DoWork w.work_item WorkItemResult.init) }
      started := pool.started ++
        [⟨i, w.ticket, w.work_item, w.os_priority, w.current_priority⟩] } := by
  have hnb : w.inBody = true := by simp [Worker.inBody, hpc]
  have hnd : w.beforeDoWork = true := by simp [Worker.beforeDoWork, hpc]
  have hself := lookup_set_self
    (a := ({ w with pc := Pc.atSetValue (DoWork w.work_item WorkItemResult.init) } :
      Worker)) hw
  refine
    { fifo := hI.fifo
      hold := ?_
      started_deq := ?_
      started_prio := ?_
      fulfilled_deq := hI.fulfilled_deq
      started_nodup := ?_
      fulfilled_nodup := hI.fulfilled_nodup
      pre_fresh := ?_
      body_fresh := ?_
      set_value := ?_
      deq_started := ?_
      deq_fulfilled := ?_
      prio := ?_
      exit := ?_
      joined := ?_
      single := ?_ }
  · intro j w2 h2 hb2
    rcases set_lookup h2 with ⟨rfl, rfl⟩ | ⟨_, h3⟩
    · exact hI.hold j w hw hnb
    · exact hI.hold j w2 h3 hb2
  · intro e he
    rcases List.mem_append.1 he with he | he
    · exact hI.started_deq e he
    · simp at he
      subst he
      exact hI.hold i w hw hnb
  · intro e he
    rcases List.mem_append.1 he with he | he
    · exact hI.started_prio e he
    · simp at he
      subst he
      exact (hI.prio i w hw).1
  · rw [List.map_append, List.nodup_append]
    refine ⟨hI.started_nodup, by simp, ?_⟩
    intro a ha hb
    simp at hb
    subst hb
    obtain ⟨e, he, hte⟩ := List.mem_map.1 ha
    exact hI.pre_fresh i w hw hnd e he hte
  · intro j w2 h2 hb2 e he
    rcases set_lookup h2 with ⟨_, rfl⟩ | ⟨hji, h3⟩
    · simp [Worker.beforeDoWork] at hb2
    · rcases List.mem_append.1 he with he | he
      · exact hI.pre_fresh j w2 h3 hb2 e he
      · simp at he
        subst he
        exact hI.holders_differ hw hnb h3 (Worker.inBody_of_beforeDoWork hb2) hji
  · intro j w2 h2 hb2
    rcases set_lookup h2 with ⟨rfl, rfl⟩ | ⟨_, h3⟩
    · exact hI.body_fresh j w hw hnb
    · exact hI.body_fresh j w2 h3 hb2
  · intro j w2 r h2 hb2
    rcases set_lookup h2 with ⟨_, rfl⟩ | ⟨_, h3⟩
    · simp at hb2
      exact hb2.symm
    · exact hI.set_value j w2 r h3 hb2
  · intro d hd
    rcases hI.deq_started d hd with ⟨e, he, hte⟩ | ⟨w0, h0, hb0, ht0⟩
    · exact Or.inl ⟨e, List.mem_append_left _ he, hte⟩
    · by_cases hdi : d.worker = i
      · rw [hdi, hw] at h0
        cases h0
        exact Or.inl ⟨_, List.mem_append_right _ (List.mem_singleton_self _), ht0⟩
      · exact Or.inr
          ⟨w0, by simpa [List.getElem?_set_ne (Ne.symm hdi)] using h0, hb0, ht0⟩
  · intro d hd
    rcases hI.deq_fulfilled d hd with h | ⟨w0, h0, hb0, ht0⟩
    · exact Or.inl h
    · right
      by_cases hdi : d.worker = i
      · rw [hdi, hw] at h0
        cases h0
        rw [hdi]
        exact ⟨_, hself, by simp [Worker.inBody], ht0⟩
      · exact ⟨w0, by simpa [List.getElem?_set_ne (Ne.symm hdi)] using h0, hb0, ht0⟩
  · intro j w2 h2
    rcases set_lookup h2 with ⟨_, rfl⟩ | ⟨_, h3⟩
    · exact hI.prio i w hw
    · exact hI.prio j w2 h3
  · intro hl j w2 h2 hx
    rcases set_lookup h2 with ⟨_, rfl⟩ | ⟨_, h3⟩
    · simp at hx
    · exact hI.exit hl j w2 h3 hx
  · intro j hj
    obtain ⟨w0, h0, hx0⟩ := hI.joined j hj
    by_cases hji : j = i
    · rw [hji, hw] at h0
      cases h0
      rw [hpc] at hx0
      cases hx0
    · exact ⟨w0, by simpa [List.getElem?_set_ne (Ne.symm hji)] using h0, hx0⟩
  · intro w2 h2
    obtain ⟨hl, rfl⟩ := set_singleton hw h2
    have h := hI.single w hl
    rw [hnd] at h
    simp [Worker.beforeDoWork, Started.key] at h ⊢
    exact h

theorem inv_worker_setValue {pool : ThreadPool} (hI : Inv DoWork pool) {i : Nat}
    {w : Worker} (hw : pool.threads_[i]? = some w) {r : WorkItemResult}
    (hpc : w.pc = Pc.atSetValue r) :
    Inv DoWork { pool with
      threads_ := pool.threads_.set i { w with pc := Pc.atRead }
      fulfilled := pool.fulfilled ++ [⟨i, w.ticket, w.work_item.result, r⟩] } := by
  have hnb : w.inBody = true := by simp [Worker.inBody, hpc]
  have hnd : w.beforeDoWork = false := by simp [Worker.beforeDoWork, hpc]
  refine
    { fifo := hI.fifo
      hold := ?_
      started_deq := hI.started_deq
      started_prio := hI.started_prio
      fulfilled_deq := ?_
      started_nodup := hI.started_nodup
      fulfilled_nodup := ?_
      pre_fresh := ?_
      body_fresh := ?_
      set_value := ?_
      deq_started := ?_
      deq_fulfilled := ?_
      prio := ?_
      exit := ?_
      joined := ?_
      single := ?_ }
  · intro j w2 h2 hb2
    rcases set_lookup h2 with ⟨_, rfl⟩ | ⟨_, h3⟩
    · simp [Worker.inBody] at hb2
    · exact hI.hold j w2 h3 hb2
  · intro f hf
    rcases List.mem_append.1 hf with hf | hf
    · exact hI.fulfilled_deq f hf
    · simp at hf
      subst hf
      exact ⟨w.work_item, hI.hold i w hw hnb, rfl, hI.set_value i w r hw hpc⟩
  · rw [List.map_append, List.nodup_append]
    refine ⟨hI.fulfilled_nodup, by simp, ?_⟩
    intro a ha hb
    simp at hb
    subst hb
    obtain ⟨f, hf, htf⟩ := List.mem_map.1 ha
    exact hI.body_fresh i w hw hnb f hf htf
  · intro j w2 h2 hb2
    rcases set_lookup h2 with ⟨_, rfl⟩ | ⟨_, h3⟩
    · simp [Worker.beforeDoWork] at hb2
    · exact hI.pre_fresh j w2 h3 hb2
  · intro j w2 h2 hb2 f hf
    rcases set_lookup h2 with ⟨_, rfl⟩ | ⟨hji, h3⟩
    · simp [Worker.inBody] at hb2
    · rcases List.mem_append.1 hf with hf | hf
      · exact hI.body_fresh j w2 h3 hb2 f hf
      · simp at hf
        subst hf
        exact hI.holders_differ hw hnb h3 hb2 hji
  · intro j w2 r2 h2 hb2
    rcases set_lookup h2 with ⟨_, rfl⟩ | ⟨_, h3⟩
    · simp at hb2
    · exact hI.set_value j w2 r2 h3 hb2
  · intro d hd
    rcases hI.deq_started d hd with h | ⟨w0, h0, hb0, ht0⟩
    · exact Or.inl h
    · right
      by_cases hdi : d.worker = i
      · rw [hdi, hw] at h0
        cases h0
        simp [hnd] at hb0
      · exact ⟨w0, by simpa [List.getElem?_set_ne (Ne.symm hdi)] using h0, hb0, ht0⟩
  · intro d hd
    rcases hI.deq_fulfilled d hd with ⟨f, hf, htf⟩ | ⟨w0, h0, hb0, ht0⟩
    · exact Or.inl ⟨f, List.mem_append_left _ hf, htf⟩
    · by_cases hdi : d.worker = i
      · rw [hdi, hw] at h0
        cases h0
        exact Or.inl ⟨_, List.mem_append_right _ (List.mem_singleton_self _), ht0⟩
      · exact Or.inr
          ⟨w0, by simpa [List.getElem?_set_ne (Ne.symm hdi)] using h0, hb0, ht0⟩
  · intro j w2 h2
    rcases set_lookup h2 with ⟨_, rfl⟩ | ⟨_, h3⟩
    · exact hI.prio i w hw
    · exact hI.prio j w2 h3
  · intro hl j w2 h2 hx
    rcases set_lookup h2 with ⟨_, rfl⟩ | ⟨_, h3⟩
    · simp at hx
    · exact hI.exit hl j w2 h3 hx
  · intro j hj
    obtain ⟨w0, h0, hx0⟩ := hI.joined j hj
    by_cases hji : j = i
    · rw [hji, hw] at h0
      cases h0
      rw [hpc] at hx0
      cases hx0
    · exact ⟨w0, by simpa [List.getElem?_set_ne (Ne.symm hji)] using h0, hx0⟩
  · intro w2 h2
    obtain ⟨hl, rfl⟩ := set_singleton hw h2
    have h := hI.single w hl
    rw [hnd] at h
    simp [Worker.beforeDoWork] at h ⊢
    exact h

theorem inv_addWorkItem {pool : ThreadPool} (hI : Inv DoWork pool) (work_item : WorkItem) :
    Inv DoWork (pool.AddWorkItem work_item).1 := by
  unfold ThreadPool.AddWorkItem
  refine
    { fifo := ?_
      hold := hI.hold
      started_deq := hI.started_deq
      started_prio := hI.started_prio
      fulfilled_deq := hI.fulfilled_deq
      started_nodup := hI.started_nodup
      fulfilled_nodup := hI.fulfilled_nodup
      pre_fresh := hI.pre_fresh
      body_fresh := hI.body_fresh
      set_value := hI.set_value
      deq_started := hI.deq_started
      deq_fulfilled := hI.deq_fulfilled
      prio := hI.prio
      exit := ?_
      joined := hI.joined
      single := hI.single }
  · simp only [channel.write, WorkItem.moveCtor, WorkItem.moveAssign_item]
    rw [List.enum_append, List.enumFrom_singleton, ← hI.fifo, List.append_assoc]
  · intro hl j w2 h2 hx
    simp only [Bool.or_eq_false_iff] at hl
    have := (hI.exit hl.1 j w2 h2 hx).1
    rw [hl.2] at this
    cases this

theorem inv_frame {pool : ThreadPool} (hI : Inv DoWork pool) (n : Int) (p : CpuPriority) :
    Inv DoWork { pool with num_threads_ := n, threads_cpu_priority_ := p } :=
  { fifo := hI.fifo
    hold := hI.hold
    started_deq := hI.started_deq
    started_prio := hI.started_prio
    fulfilled_deq := hI.fulfilled_deq
    started_nodup := hI.started_nodup
    fulfilled_nodup := hI.fulfilled_nodup
    pre_fresh := hI.pre_fresh
    body_fresh := hI.body_fresh
    set_value := hI.set_value
    deq_started := hI.deq_started
    deq_fulfilled := hI.deq_fulfilled
    prio := hI.prio
    exit := hI.exit
    joined := hI.joined
    single := hI.single }

theorem inv_destroy {pool pool' : ThreadPool} (hI : Inv DoWork pool)
    (h : pool.destroy = some pool') : Inv DoWork pool' := by
  unfold ThreadPool.destroy at h
  by_cases he : pool.work_items_.eof_ = true
  · simp [he] at h
  · simp [he] at h
    subst h
    refine
      { fifo := hI.fifo
        hold := hI.hold
        started_deq := hI.started_deq
        started_prio := hI.started_prio
        fulfilled_deq := hI.fulfilled_deq
        started_nodup := hI.started_nodup
        fulfilled_nodup := hI.fulfilled_nodup
        pre_fresh := hI.pre_fresh
        body_fresh := hI.body_fresh
        set_value := hI.set_value
        deq_started := hI.deq_started
        deq_fulfilled := hI.deq_fulfilled
        prio := hI.prio
        exit := ?_
        joined := hI.joined
        single := hI.single }
    intro hl j w2 h2 hx
    exact absurd (hI.exit hl j w2 h2 hx).1 he

theorem inv_joinNext {pool pool' : ThreadPool} (hI : Inv DoWork pool)
    (h : pool.joinNext = some pool') : Inv DoWork pool' := by
  unfold ThreadPool.joinNext at h
  by_cases he : pool.work_items_.eof_ = true
  · simp only [he, if_true] at h
    cases hw : pool.threads_[pool.joined]? with
    | none => simp [hw] at h
    | some w =>
      simp only [hw] at h
      by_cases hx : w.pc = Pc.exited
      · simp [hx] at h
        subst h
        refine
          { fifo := hI.fifo
            hold := hI.hold
            started_deq := hI.started_deq
            started_prio := hI.started_prio
            fulfilled_deq := hI.fulfilled_deq
            started_nodup := hI.started_nodup
            fulfilled_nodup := hI.fulfilled_nodup
            pre_fresh := hI.pre_fresh
            body_fresh := hI.body_fresh
            set_value := hI.set_value
            deq_started := hI.deq_started
            deq_fulfilled := hI.deq_fulfilled
            prio := hI.prio
            exit := hI.exit
            joined := ?_
            single := hI.single }
        intro j hj
        rcases Nat.lt_succ_iff_lt_or_eq.1 hj with hj | hj
        · exact hI.joined j hj
        · exact ⟨w, by rw [hj]; exact hw, hx⟩
      · simp [hx] at h
  · simp [he] at h

theorem inv_workerStep {pool pool' : ThreadPool} {i : Nat} (hI : Inv DoWork pool)
    (h : pool.workerStep DoWork i = some pool') : Inv DoWork pool' := by
  obtain ⟨w, hw, hc⟩ := workerStep_cases h
  rcases hc with ⟨hpc, hb, he, rfl⟩ | ⟨hpc, t, elem, rest, hb, rfl⟩ |
    ⟨hpc, os, log, h1, h2, h3, rfl⟩ | ⟨hpc, rfl⟩ | ⟨r, hpc, _, rfl⟩
  · exact inv_worker_exit hI hw hpc hb he
  · exact inv_worker_dequeue hI hw hpc hb
  · exact inv_worker_priority hI hw hpc h1 h2 h3
  · exact inv_worker_doWork hI hw hpc
  · exact inv_worker_setValue hI hw hpc

theorem inv_step {pool pool' : ThreadPool} {a : Action} (hI : Inv DoWork pool)
    (h : pool.step DoWork a = some pool') : Inv DoWork pool' := by
  cases a with
  | AddWorkItem work_item =>
    simp only [ThreadPool.step, Option.some.injEq] at h
    subst h
    exact inv_addWorkItem hI work_item
  | SetCpuPriority priority =>
    simp only [ThreadPool.step, Option.some.injEq] at h
    subst h
    exact inv_frame hI pool.num_threads_ priority
  | UpdateMaxThreads num_threads =>
    simp only [ThreadPool.step, Option.some.injEq] at h
    subst h
    exact inv_frame hI num_threads pool.threads_cpu_priority_
  | worker i => exact inv_workerStep hI h
  | destroy => exact inv_destroy hI h
  | join => exact inv_joinNext hI h

theorem inv_run {sched : List Action} {pool pool' : ThreadPool} (hI : Inv DoWork pool)
    (h : ThreadPool.run DoWork pool sched = some pool') : Inv DoWork pool' := by
  induction sched generalizing pool with
  | nil =>
    simp only [ThreadPool.run, Option.some.injEq] at h
    subst h
    exact hI
  | cons a rest ih =>
    simp only [ThreadPool.run] at h
    cases hs : pool.step DoWork a with
    | none => simp [hs] at h
    | some next =>
      simp only [hs] at h
      exact ih (inv_step hI hs) h

theorem spawnLoop_eq (fuel : Nat) (t : Int) (pool : ThreadPool)
    (hf : (pool.num_threads_ - t).toNat ≤ fuel) :
    pool.spawnLoop fuel t = some { pool with
      threads_ := pool.threads_ ++
        List.replicate (pool.num_threads_ - t).toNat Worker.spawn } := by
  induction fuel generalizing t pool with
  | zero =>
    have h0 : (pool.num_threads_ - t).toNat = 0 := Nat.le_zero.1 hf
    have hle : ¬ t < pool.num_threads_ := by omega
    simp [ThreadPool.spawnLoop, hle, h0]
  | succ fuel ih =>
    by_cases hlt : t < pool.num_threads_
    · have hk : (pool.num_threads_ - t).toNat = (pool.num_threads_ - (t + 1)).toNat + 1 := by
        omega
      rw [ThreadPool.spawnLoop, if_pos hlt, ih]
      · simp only [hk, List.replicate_succ, List.append_assoc, List.singleton_append]
      · simp only
        omega
    · have h0 : (pool.num_threads_ - t).toNat = 0 := by omega
      simp [ThreadPool.spawnLoop, hlt, h0]

theorem Initialize_eq (pool : ThreadPool) (n : Int) (p : CpuPriority) (hn : 0 ≤ n) :
    pool.Initialize n p = some { pool with
      num_threads_ := n
      threads_cpu_priority_ := p
      threads_ := pool.threads_ ++ List.replicate n.toNat Worker.spawn } := by
  unfold ThreadPool.Initialize
  have hneg : ¬ n < 0 := by omega
  simp only [hneg, if_false]
  rw [spawnLoop_eq]
  · simp
  · simp

theorem Initialize_some {pool pool0 : ThreadPool} {n : Int} {p : CpuPriority}
    (h : pool.Initialize n p = some pool0) :
    0 ≤ n ∧ pool0 = { pool with
      num_threads_ := n
      threads_cpu_priority_ := p
      threads_ := pool.threads_ ++ List.replicate n.toNat Worker.spawn } := by
  by_cases hn : 0 ≤ n
  · rw [Initialize_eq pool n p hn] at h
    exact ⟨hn, (Option.some.inj h).symm⟩
  · have hneg : n < 0 := by omega
    simp [ThreadPool.Initialize, hneg] at h

theorem pristine_ctor_Initialize {name : String} {rn : Int} {rp : CpuPriority}
    {n : Int} {p : CpuPriority} {pool0 : ThreadPool}
    (h : (ThreadPool.ctor name rn rp).Initialize n p = some pool0) :
    Pristine pool0 := by
  obtain ⟨_, rfl⟩ := Initialize_some h
  refine
    { buffer := rfl
      eof := rfl
      threads := ?_
      submitted := rfl
      dequeued := rfl
      started := rfl
      fulfilled := rfl
      joined := rfl
      late_submit := rfl }
  intro w hw
  simp only [ThreadPool.ctor, List.nil_append] at hw
  exact List.eq_of_mem_replicate hw

theorem Pristine.inv {pool : ThreadPool} (hP : Pristine pool) : Inv DoWork pool := by
  have hspawn : ∀ (i : Nat) (w : Worker), pool.threads_[i]? = some w → w = Worker.spawn :=
    fun i w h => hP.threads w (List.getElem?_mem h)
  refine
    { fifo := by simp [hP.buffer, hP.dequeued, hP.submitted]
      hold := ?_
      started_deq := by simp [hP.started]
      started_prio := by simp [hP.started]
      fulfilled_deq := by simp [hP.fulfilled]
      started_nodup := by simp [hP.started]
      fulfilled_nodup := by simp [hP.fulfilled]
      pre_fresh := by simp [hP.started]
      body_fresh := by simp [hP.fulfilled]
      set_value := ?_
      deq_started := by simp [hP.dequeued]
      deq_fulfilled := by simp [hP.dequeued]
      prio := ?_
      exit := ?_
      joined := by simp [hP.joined]
      single := ?_ }
  · intro i w hw hb
    rw [hspawn i w hw] at hb
    simp [Worker.inBody, Worker.spawn] at hb
  · intro i w r hw hpc
    rw [hspawn i w hw] at hpc
    simp [Worker.spawn] at hpc
  · intro i w hw
    rw [hspawn i w hw]
    simp [Worker.spawn, Worker.loaded, appliedPriority, expectedLog]
  · intro _ i w hw hpc
    rw [hspawn i w hw] at hpc
    simp [Worker.spawn] at hpc
  · intro w hw
    have : w = Worker.spawn := hP.threads w (by rw [hw]; simp)
    subst this
    simp [hP.started, hP.dequeued, Worker.beforeDoWork, Worker.spawn]

theorem inv_reachable {name : String} {rn : Int} {rp : CpuPriority}
    {n : Int} {p : CpuPriority} {pool0 pool : ThreadPool} {sched : List Action}
    (h0 : (ThreadPool.ctor name rn rp).Initialize n p = some pool0)
    (hrun : ThreadPool.run DoWork pool0 sched = some pool) : Inv DoWork pool :=
  inv_run (pristine_ctor_Initialize h0).inv hrun

theorem Inv.submitted_of_dequeued {pool : ThreadPool} (hI : Inv DoWork pool)
    {d : Dequeued} (hd : d ∈ pool.dequeued) :
    pool.submitted[d.ticket]? = some d.item := by
  have h1 : d.key ∈ pool.dequeued.map Dequeued.key ++ pool.work_items_.buffer_ :=
    List.mem_append_left _ (List.mem_map_of_mem _ hd)
  rw [hI.fifo] at h1
  exact List.mem_enum_iff_getElem?.1 h1

theorem step_threads_length {pool pool' : ThreadPool} {a : Action}
    (h : pool.step DoWork a = some pool') :
    pool'.threads_.length = pool.threads_.length := by
  cases a with
  | AddWorkItem work_item =>
    simp only [ThreadPool.step, Option.some.injEq] at h
    subst h
    rfl
  | SetCpuPriority priority =>
    simp only [ThreadPool.step, Option.some.injEq] at h
    subst h
    rfl
  | UpdateMaxThreads num_threads =>
    simp only [ThreadPool.step, Option.some.injEq] at h
    subst h
    rfl
  | worker i =>
    obtain ⟨w, hw, hc⟩ := workerStep_cases h
    rcases hc with ⟨_, _, _, rfl⟩ | ⟨_, _, _, _, _, rfl⟩ |
      ⟨_, _, _, _, _, _, rfl⟩ | ⟨_, rfl⟩ | ⟨_, _, _, rfl⟩ <;> simp
  | destroy =>
    simp only [ThreadPool.step, ThreadPool.destroy] at h
    split at h
    · cases h
    · cases h
      rfl
  | join =>
    simp only [ThreadPool.step, ThreadPool.joinNext] at h
    split at h
    · split at h
      · cases h
      · split at h
        · cases h
          rfl
        · cases h
    · cases h

theorem run_threads_length {sched : List Action} {pool pool' : ThreadPool}
    (h : ThreadPool.run DoWork pool sched = some pool') :
    pool'.threads_.length = pool.threads_.length := by
  induction sched generalizing pool with
  | nil =>
    simp only [ThreadPool.run, Option.some.injEq] at h
    subst h
    rfl
  | cons a rest ih =>
    simp only [ThreadPool.run] at h
    cases hs : pool.step DoWork a with
    | none => simp [hs] at h
    | some next =>
      simp only [hs] at h
      rw [ih h, step_threads_length hs]

theorem step_priority {pool pool' : ThreadPool} {a : Action}
    (ha : a.isSetCpuPriority = false) (h : pool.step DoWork a = some pool') :
    pool'.threads_cpu_priority_ = pool.threads_cpu_priority_ := by
  cases a with
  | AddWorkItem work_item =>
    simp only [ThreadPool.step, Option.some.injEq] at h
    subst h
    rfl
  | SetCpuPriority priority => simp [Action.isSetCpuPriority] at ha
  | UpdateMaxThreads num_threads =>
    simp only [ThreadPool.step, Option.some.injEq] at h
    subst h
    rfl
  | worker i =>
    obtain ⟨w, hw, hc⟩ := workerStep_cases h
    rcases hc with ⟨_, _, _, rfl⟩ | ⟨_, _, _, _, _, rfl⟩ |
      ⟨_, _, _, _, _, _, rfl⟩ | ⟨_, rfl⟩ | ⟨_, _, _, rfl⟩ <;> rfl
  | destroy =>
    simp only [ThreadPool.step, ThreadPool.destroy] at h
    split at h
    · cases h
    · cases h
      rfl
  | join =>
    simp only [ThreadPool.step, ThreadPool.joinNext] at h
    split at h
    · split at h
      · cases h
      · split at h
        · cases h
          rfl
        · cases h
    · cases h

theorem run_priority {sched : List Action} {pool pool' : ThreadPool}
    (hno : ∀ a ∈ sched, a.isSetCpuPriority = false)
    (h : ThreadPool.run DoWork pool sched = some pool') :
    pool'.threads_cpu_priority_ = pool.threads_cpu_priority_ := by
  induction sched generalizing pool with
  | nil =>
    simp only [ThreadPool.run, Option.some.injEq] at h
    subst h
    rfl
  | cons a rest ih =>
    simp only [ThreadPool.run] at h
    cases hs : pool.step DoWork a with
    | none => simp [hs] at h
    | some next =>
      simp only [hs] at h
      rw [ih (fun b hb => hno b (List.mem_cons_of_mem _ hb)) h,
        step_priority (hno a (List.mem_cons_self _ _)) hs]

/-- C6: for every positive `numThreads` and every priority `p`,
`Initialize(numThreads, p)` on a newly constructed pool (whatever its atomics
held) succeeds, leaves exactly `numThreads` worker threads, each at the start of
its lambda, sets the thread-count field to `numThreads`, and `GetCpuPriority()`
then returns `p`; with the priority argument omitted `GetCpuPriority()` returns
`kNormal` and the same threads are spawned. -/
theorem initialize_spawns (name : String) (rn : Int) (rp : CpuPriority)
    (numThreads : Int) (p : CpuPriority) (hpos : 0 < numThreads) :
    (∃ pool, (ThreadPool.ctor name rn rp).Initialize numThreads p = some pool ∧
      (pool.threads_.length : Int) = numThreads ∧
      (∀ w ∈ pool.threads_, w = Worker.spawn) ∧
      pool.num_threads_ = numThreads ∧
      pool.GetCpuPriority.1 = p) ∧
    (∃ pool, (ThreadPool.ctor name rn rp).InitializeDefault numThreads = some pool ∧
      (pool.threads_.length : Int) = numThreads ∧
      pool.num_threads_ = numThreads ∧
      pool.GetCpuPriority.1 = CpuPriority.kNormal) := by
  have hn : 0 ≤ numThreads := by omega
  have hlen : ((List.replicate numThreads.toNat Worker.spawn).length : Int) = numThreads := by
    rw [List.length_replicate]
    omega
  refine ⟨⟨_, Initialize_eq _ numThreads p hn, ?_, ?_, rfl, rfl⟩,
    ⟨_, Initialize_eq _ numThreads CpuPriority.kNormal hn, ?_, rfl, rfl⟩⟩
  · simpa [ThreadPool.ctor] using hlen
  · intro w hw
    simp only [ThreadPool.ctor, List.nil_append] at hw
    exact List.eq_of_mem_replicate hw
  · simpa [ThreadPool.ctor] using hlen

/-- Witness of C6 at `numThreads = 3`, `p = kLow`. -/
theorem initialize_spawns_witness :
    (0 : Int) < 3 ∧
    ((∃ pool, (ThreadPool.ctor "demo" 7 CpuPriority.kHigh).Initialize 3 CpuPriority.kLow
        = some pool ∧
      (pool.threads_.length : Int) = 3 ∧
      (∀ w ∈ pool.threads_, w = Worker.spawn) ∧
      pool.num_threads_ = 3 ∧
      pool.GetCpuPriority.1 = CpuPriority.kLow) ∧
    (∃ pool, (ThreadPool.ctor "demo" 7 CpuPriority.kHigh).InitializeDefault 3 = some pool ∧
      (pool.threads_.length : Int) = 3 ∧
      pool.num_threads_ = 3 ∧
      pool.GetCpuPriority.1 = CpuPriority.kNormal)) :=
  ⟨by decide, initialize_spawns "demo" 7 CpuPriority.kHigh 3 CpuPriority.kLow (by decide)⟩

/-- C7: `GetCpuPriority()` right after `SetCpuPriority(p)` returns `p`, and
still returns `p` after any schedule of pool transitions that contains no
`SetCpuPriority`; `SetCpuPriority` changes nothing but the priority field
(thread-count field, worker threads, channel with its queued items, and name
are as before); `GetCpuPriority` returns the pool unchanged. -/
theorem get_after_set (DoWork : WorkItem → WorkItemResult → WorkItemResult)
    (pool : ThreadPool) (p : CpuPriority) (sched : List Action) (pool' : ThreadPool)
    (hno : ∀ a ∈ sched, a.isSetCpuPriority = false)
    (hrun : ThreadPool.run DoWork (pool.SetCpuPriority p) sched = some pool') :
    (pool.SetCpuPriority p).GetCpuPriority.1 = p ∧
    pool'.GetCpuPriority.1 = p ∧
    pool.SetCpuPriority p = { pool with threads_cpu_priority_ := p } ∧
    (pool.SetCpuPriority p).num_threads_ = pool.num_threads_ ∧
    (pool.SetCpuPriority p).threads_ = pool.threads_ ∧
    (pool.SetCpuPriority p).work_items_ = pool.work_items_ ∧
    (pool.SetCpuPriority p).name_ = pool.name_ ∧
    pool.GetCpuPriority.2 = pool ∧
    pool'.GetCpuPriority.2 = pool' :=
  ⟨rfl, run_priority hno hrun, rfl, rfl, rfl, rfl, rfl, rfl, rfl⟩

/-- C8: the setter `UpdateMaxThreads` stores its argument in the
desired-thread-count field and changes nothing else (the worker threads, the
channel, the priority field and the name are as before); and in every state
reached after `Initialize(numThreads, p)` by any schedule, with any number of
`UpdateMaxThreads` calls of any value in it, the pool holds exactly the
`numThreads` threads that `Initialize` spawned, before and after one more call
`UpdateMaxThreads(m)`. -/
theorem updateMaxThreads_frame (DoWork : WorkItem → WorkItemResult → WorkItemResult)
    (name : String) (rn : Int) (rp : CpuPriority) (numThreads : Int)
    (p : CpuPriority) (pool0 pool : ThreadPool) (sched : List Action) (m : Int)
    (h0 : (ThreadPool.ctor name rn rp).Initialize numThreads p = some pool0)
    (hrun : ThreadPool.run DoWork pool0 sched = some pool) :
    (pool.UpdateMaxThreads m).num_threads_ = m ∧
    pool.UpdateMaxThreads m = { pool with num_threads_ := m } ∧
    (pool.UpdateMaxThreads m).threads_ = pool.threads_ ∧
    (pool.UpdateMaxThreads m).work_items_ = pool.work_items_ ∧
    (pool.UpdateMaxThreads m).threads_cpu_priority_ = pool.threads_cpu_priority_ ∧
    (pool.UpdateMaxThreads m).name_ = pool.name_ ∧
    (pool.threads_.length : Int) = numThreads ∧
    ((pool.UpdateMaxThreads m).threads_.length : Int) = numThreads := by
  obtain ⟨hn, rfl⟩ := Initialize_some h0
  have hlen := run_threads_length hrun
  have : (pool.threads_.length : Int) = numThreads := by
    rw [hlen]
    simp only [ThreadPool.ctor, List.nil_append, List.length_replicate]
    omega
  exact ⟨rfl, rfl, rfl, rfl, rfl, rfl, this, this⟩

/-- C10: the item obtained by move-constructing or move-assigning from `w`
equals `w` as it was before the move, that is in every one of the nineteen
fields, whatever the assigned-to item held; `AddWorkItem(w)` therefore queues
`w` itself behind the items already queued; and in every reachable state every
`DoWork` invocation received exactly the item that was passed to `AddWorkItem`
under its submission number, parameters and result promise included. -/
theorem move_preserves_payload (DoWork : WorkItem → WorkItemResult → WorkItemResult)
    (w self : WorkItem) (name : String) (rn : Int) (rp : CpuPriority) (n : Int)
    (p : CpuPriority) (pool0 pool : ThreadPool) (sched : List Action)
    (h0 : (ThreadPool.ctor name rn rp).Initialize n p = some pool0)
    (hrun : ThreadPool.run DoWork pool0 sched = some pool) :
    (WorkItem.moveCtor w).1 = w ∧
    (WorkItem.moveAssign self w).1 = w ∧
    (pool.AddWorkItem w).1.work_items_.buffer_ =
      pool.work_items_.buffer_ ++ [(pool.submitted.length, w)] ∧
    (∀ e ∈ pool.started, pool.submitted[e.ticket]? = some e.item) ∧
    (∀ d ∈ pool.dequeued, pool.submitted[d.ticket]? = some d.item) := by
  have hI : Inv DoWork pool := inv_reachable h0 hrun
  refine ⟨WorkItem.moveAssign_item _ w, WorkItem.moveAssign_item self w, ?_, ?_, ?_⟩
  · simp [ThreadPool.AddWorkItem, channel.write, WorkItem.moveCtor, WorkItem.moveAssign_item]
  · intro e he
    exact hI.submitted_of_dequeued (hI.started_deq e he)
  · intro d hd
    exact hI.submitted_of_dequeued hd

/-- Witness of C10 on the sample pool and schedule. -/
theorem move_preserves_payload_witness :
    (demoRaw.Initialize 1 CpuPriority.kHigh = some demoPool0 ∧
      ThreadPool.run demoDoWork demoPool0 demoSchedule = some demoPool) ∧
    ((WorkItem.moveCtor (demoItem 3)).1 = demoItem 3 ∧
    (WorkItem.moveAssign (demoItem 4) (demoItem 3)).1 = demoItem 3 ∧
    (demoPool.AddWorkItem (demoItem 3)).1.work_items_.buffer_ =
      demoPool.work_items_.buffer_ ++ [(demoPool.submitted.length, demoItem 3)] ∧
    (∀ e ∈ demoPool.started, demoPool.submitted[e.ticket]? = some e.item) ∧
    (∀ d ∈ demoPool.dequeued, demoPool.submitted[d.ticket]? = some d.item)) :=
  ⟨⟨rfl, rfl⟩,
    move_preserves_payload demoDoWork (demoItem 3) (demoItem 4) "demo" 0
      CpuPriority.kIdle 1 CpuPriority.kHigh demoPool0 demoPool demoSchedule rfl rfl⟩

theorem count_eq_one_of_mem_nodup {l : List Nat} {t : Nat} (hn : l.Nodup) (hm : t ∈ l) :
    l.count t = 1 :=
  Nat.le_antisymm (List.nodup_iff_count_le_one.1 hn t) (List.count_pos_iff.2 hm)

/-- C1: in every state reachable after `Initialize`, for every submission
number `DoWork` has been invoked at most once and `set_value` completed at most
once; each `DoWork` invocation and each fulfilment is by the worker that
dequeued the item, each item is dequeued by one worker only, so the `DoWork`
invocation and the fulfilment of an item are by the same worker; and every
dequeued item whose worker is no longer inside the loop body for it has had
`DoWork` invoked exactly once and its promise fulfilled exactly once. -/
theorem exactly_once (DoWork : WorkItem → WorkItemResult → WorkItemResult)
    (name : String) (rn : Int) (rp : CpuPriority) (n : Int)
    (p : CpuPriority) (pool0 pool : ThreadPool) (sched : List Action)
    (h0 : (ThreadPool.ctor name rn rp).Initialize n p = some pool0)
    (hrun : ThreadPool.run DoWork pool0 sched = some pool) :
    (∀ t, pool.doWorkCount t ≤ 1 ∧ pool.fulfilCount t ≤ 1) ∧
    (∀ e ∈ pool.started, (⟨e.worker, e.ticket, e.item⟩ : Dequeued) ∈ pool.dequeued) ∧
    (∀ f ∈ pool.fulfilled, ∃ item,
      (⟨f.worker, f.ticket, item⟩ : Dequeued) ∈ pool.dequeued) ∧
    (∀ d1 ∈ pool.dequeued, ∀ d2 ∈ pool.dequeued,
      d1.ticket = d2.ticket → d1.worker = d2.worker) ∧
    (∀ e ∈ pool.started, ∀ f ∈ pool.fulfilled,
      e.ticket = f.ticket → e.worker = f.worker) ∧
    (∀ d ∈ pool.dequeued, ¬ pool.busyWith d.worker d.ticket →
      pool.doWorkCount d.ticket = 1 ∧ pool.fulfilCount d.ticket = 1) := by
  have hI : Inv DoWork pool := inv_reachable h0 hrun
  refine ⟨?_, hI.started_deq, ?_, ?_, ?_, ?_⟩
  · intro t
    exact ⟨List.nodup_iff_count_le_one.1 hI.started_nodup t,
      List.nodup_iff_count_le_one.1 hI.fulfilled_nodup t⟩
  · intro f hf
    obtain ⟨item, hd, _⟩ := hI.fulfilled_deq f hf
    exact ⟨item, hd⟩
  · intro d1 h1 d2 h2 ht
    rw [hI.deq_inj h1 h2 ht]
  · intro e he f hf ht
    obtain ⟨item, hd, _⟩ := hI.fulfilled_deq f hf
    have := hI.deq_inj (hI.started_deq e he) hd ht
    exact congrArg Dequeued.worker this
  · intro d hd hbusy
    constructor
    · rcases hI.deq_started d hd with ⟨e, he, hte⟩ | ⟨w, hw, hb, ht⟩
      · exact count_eq_one_of_mem_nodup hI.started_nodup
          (List.mem_map.2 ⟨e, he, hte⟩)
      · exact absurd ⟨w, hw, Worker.inBody_of_beforeDoWork hb, ht⟩ hbusy
    · rcases hI.deq_fulfilled d hd with ⟨f, hf, htf⟩ | hb
      · exact count_eq_one_of_mem_nodup hI.fulfilled_nodup
          (List.mem_map.2 ⟨f, hf, htf⟩)
      · exact absurd hb hbusy

/-- Witness of C1 on the sample pool and schedule. -/
theorem exactly_once_witness :
    (demoRaw.Initialize 1 CpuPriority.kHigh = some demoPool0 ∧
      ThreadPool.run demoDoWork demoPool0 demoSchedule = some demoPool) ∧
    ((∀ t, demoPool.doWorkCount t ≤ 1 ∧ demoPool.fulfilCount t ≤ 1) ∧
    (∀ e ∈ demoPool.started,
      (⟨e.worker, e.ticket, e.item⟩ : Dequeued) ∈ demoPool.dequeued) ∧
    (∀ f ∈ demoPool.fulfilled, ∃ item,
      (⟨f.worker, f.ticket, item⟩ : Dequeued) ∈ demoPool.dequeued) ∧
    (∀ d1 ∈ demoPool.dequeued, ∀ d2 ∈ demoPool.dequeued,
      d1.ticket = d2.ticket → d1.worker = d2.worker) ∧
    (∀ e ∈ demoPool.started, ∀ f ∈ demoPool.fulfilled,
      e.ticket = f.ticket → e.worker = f.worker) ∧
    (∀ d ∈ demoPool.dequeued, ¬ demoPool.busyWith d.worker d.ticket →
      demoPool.doWorkCount d.ticket = 1 ∧ demoPool.fulfilCount d.ticket = 1)) :=
  ⟨⟨rfl, rfl⟩,
    exactly_once demoDoWork "demo" 0 CpuPriority.kIdle 1 CpuPriority.kHigh
      demoPool0 demoPool demoSchedule rfl rfl⟩

theorem run_append {s1 s2 : List Action} {pool pool' : ThreadPool}
    (h : ThreadPool.run DoWork pool (s1 ++ s2) = some pool') :
    ∃ mid, ThreadPool.run DoWork pool s1 = some mid ∧
      ThreadPool.run DoWork mid s2 = some pool' := by
  induction s1 generalizing pool with
  | nil => exact ⟨pool, rfl, h⟩
  | cons a rest ih =>
    simp only [List.cons_append, ThreadPool.run] at h ⊢
    cases hs : pool.step DoWork a with
    | none => simp [hs] at h
    | some next =>
      simp only [hs] at h ⊢
      exact ih h

theorem step_submitted {pool pool' : ThreadPool} {a : Action}
    (h : pool.step DoWork a = some pool') :
    pool.submitted <+: pool'.submitted := by
  cases a with
  | AddWorkItem work_item =>
    simp only [ThreadPool.step, Option.some.injEq] at h
    subst h
    exact List.prefix_append _ _
  | SetCpuPriority priority =>
    simp only [ThreadPool.step, Option.some.injEq] at h
    subst h
    exact List.prefix_refl _
  | UpdateMaxThreads num_threads =>
    simp only [ThreadPool.step, Option.some.injEq] at h
    subst h
    exact List.prefix_refl _
  | worker i =>
    obtain ⟨w, hw, hc⟩ := workerStep_cases h
    rcases hc with ⟨_, _, _, rfl⟩ | ⟨_, _, _, _, _, rfl⟩ |
      ⟨_, _, _, _, _, _, rfl⟩ | ⟨_, rfl⟩ | ⟨_, _, _, rfl⟩ <;> exact List.prefix_refl _
  | destroy =>
    simp only [ThreadPool.step, ThreadPool.destroy] at h
    split at h
    · cases h
    · cases h
      exact List.prefix_refl _
  | join =>
    simp only [ThreadPool.step, ThreadPool.joinNext] at h
    split at h
    · split at h
      · cases h
      · split at h
        · cases h
          exact List.prefix_refl _
        · cases h
    · cases h

theorem run_submitted {sched : List Action} {pool pool' : ThreadPool}
    (h : ThreadPool.run DoWork pool sched = some pool') :
    pool.submitted <+: pool'.submitted := by
  induction sched generalizing pool with
  | nil =>
    simp only [ThreadPool.run, Option.some.injEq] at h
    subst h
    exact List.prefix_refl _
  | cons a rest ih =>
    simp only [ThreadPool.run] at h
    cases hs : pool.step DoWork a with
    | none => simp [hs] at h
    | some next =>
      simp only [hs] at h
      exact List.IsPrefix.trans (step_submitted hs) (ih h)

theorem run_adds {items : List WorkItem} {pool pool' : ThreadPool}
    (h : ThreadPool.run DoWork pool (items.map Action.AddWorkItem) = some pool') :
    pool'.submitted = pool.submitted ++ items := by
  induction items generalizing pool with
  | nil =>
    simp only [List.map_nil, ThreadPool.run, Option.some.injEq] at h
    subst h
    simp
  | cons x rest ih =>
    simp only [List.map_cons, ThreadPool.run, ThreadPool.step] at h
    rw [ih h]
    simp [ThreadPool.AddWorkItem]

theorem prefix_take_eq {α : Type} {xs items all : List α}
    (h1 : xs <+: all) (h2 : items <+: all) :
    xs.take items.length = items.take xs.length := by
  obtain ⟨r1, rfl⟩ := h1
  obtain ⟨r2, h2⟩ := h2
  have hx : xs = (items ++ r2).take xs.length := by
    rw [h2]
    simp
  have hi : items = (xs ++ r1).take items.length := by
    rw [← h2]
    simp
  rcases Nat.le_total xs.length items.length with hle | hle
  · rw [List.take_of_length_le hle]
    rw [List.take_append_of_le_length hle] at hx
    exact hx
  · rw [List.take_of_length_le hle]
    rw [List.take_append_of_le_length hle] at hi
    exact hi.symm

theorem prefix_drop_pre {α : Type} {xs pre rest : List α} (h : xs <+: pre ++ rest) :
    xs.drop pre.length <+: rest := by
  have h1 := List.prefix_iff_eq_take.1 h
  rw [h1, List.drop_take, List.drop_left]
  exact List.take_prefix _ _

/-- C3: let `items` be submitted by consecutive `AddWorkItem` calls in a
reachable state, with no worker step between them, and let any schedule follow.
Then the items dequeued so far are, in dequeue order, an initial segment of the
submission sequence, with submission numbers `0, 1, 2, ...`; the dequeues that
follow those of the earlier submissions are the first of `items`, in the order
submitted; and in a pool with one worker the `DoWork` invocations follow the
same order. -/
theorem fifo_order (DoWork : WorkItem → WorkItemResult → WorkItemResult)
    (name : String) (rn : Int) (rp : CpuPriority) (n : Int)
    (p : CpuPriority) (pool0 mid pool : ThreadPool) (before : List Action)
    (items : List WorkItem) (sched : List Action)
    (h0 : (ThreadPool.ctor name rn rp).Initialize n p = some pool0)
    (hmid : ThreadPool.run DoWork pool0 before = some mid)
    (hrun : ThreadPool.run DoWork mid (items.map Action.AddWorkItem ++ sched)
      = some pool) :
    mid.submitted ++ items <+: pool.submitted ∧
    pool.dequeued.map Dequeued.item <+: pool.submitted ∧
    pool.dequeued.map Dequeued.ticket = List.range pool.dequeued.length ∧
    ((pool.dequeued.map Dequeued.item).drop mid.submitted.length).take items.length
      = items.take (pool.dequeued.length - mid.submitted.length) ∧
    (pool.threads_.length = 1 →
      pool.started.map Started.item <+: pool.submitted ∧
      pool.started.map Started.ticket = List.range pool.started.length ∧
      ((pool.started.map Started.item).drop mid.submitted.length).take items.length
        = items.take (pool.started.length - mid.submitted.length)) := by
  have hI : Inv DoWork pool := inv_run (inv_reachable h0 hmid) hrun
  obtain ⟨mid2, hmid2, hrest⟩ := run_append hrun
  obtain ⟨later, hlater⟩ : mid.submitted ++ items <+: pool.submitted := by
    rw [← run_adds hmid2]
    exact run_submitted hrest
  have hsub : pool.submitted = mid.submitted ++ (items ++ later) := by
    rw [← hlater, List.append_assoc]
  have hkeys : pool.dequeued.map Dequeued.key <+: pool.submitted.enum :=
    ⟨_, hI.fifo⟩
  have hdeq : pool.dequeued.map Dequeued.item <+: pool.submitted := by
    have := List.IsPrefix.map Prod.snd hkeys
    rwa [List.map_map, List.enum_map_snd] at this
  have hdt : pool.dequeued.map Dequeued.ticket = List.range pool.dequeued.length := by
    have h1 := List.IsPrefix.map Prod.fst hkeys
    rw [List.map_map, List.enum_map_fst] at h1
    have h2 : (Prod.fst ∘ Dequeued.key) = Dequeued.ticket := rfl
    rw [h2] at h1
    have h3 := List.prefix_iff_eq_take.1 h1
    rw [List.length_map] at h3
    rw [h3, List.take_range]
    congr 1
    have := h1.length_le
    simp only [List.length_map, List.length_range] at this
    omega
  have key : ∀ xs : List WorkItem, xs <+: pool.submitted →
      (xs.drop mid.submitted.length).take items.length
        = items.take (xs.length - mid.submitted.length) := by
    intro xs hxs
    rw [hsub] at hxs
    have h1 := prefix_take_eq (prefix_drop_pre hxs) (List.prefix_append items later)
    rw [List.length_drop] at h1
    exact h1
  refine ⟨⟨later, hlater⟩, hdeq, hdt, ?_, ?_⟩
  · have := key _ hdeq
    rwa [List.length_map] at this
  · intro hone
    obtain ⟨w, hw⟩ := List.length_eq_one.1 hone
    have hs := hI.single w hw
    have hsk : pool.started.map Started.key <+: pool.dequeued.map Dequeued.key :=
      ⟨_, hs⟩
    have hsi : pool.started.map Started.item <+: pool.submitted := by
      have := List.IsPrefix.map Prod.snd hsk
      rw [List.map_map, List.map_map] at this
      exact List.IsPrefix.trans this hdeq
    have hst : pool.started.map Started.ticket = List.range pool.started.length := by
      have h1 := List.IsPrefix.map Prod.fst hsk
      rw [List.map_map, List.map_map] at h1
      have h2 : (Prod.fst ∘ Dequeued.key) = Dequeued.ticket := rfl
      have h4 : (Prod.fst ∘ Started.key) = Started.ticket := rfl
      rw [h2, h4, hdt] at h1
      have h3 := List.prefix_iff_eq_take.1 h1
      rw [List.length_map] at h3
      rw [h3, List.take_range]
      congr 1
      have := h1.length_le
      simp only [List.length_map, List.length_range] at this
      omega
    refine ⟨hsi, hst, ?_⟩
    have := key _ hsi
    rwa [List.length_map] at this

theorem prioSettled_step {P : CpuPriority} {old : List Dequeued}
    {pool pool' : ThreadPool} {a : Action} (hJ : PrioSettled P old pool)
    (ha : a.isSetCpuPriority = false) (h : pool.step DoWork a = some pool') :
    PrioSettled P old pool' := by
  cases a with
  | AddWorkItem work_item =>
    simp only [ThreadPool.step, Option.some.injEq] at h
    subst h
    exact ⟨hJ.shared, hJ.workers, hJ.started⟩
  | SetCpuPriority priority => simp [Action.isSetCpuPriority] at ha
  | UpdateMaxThreads num_threads =>
    simp only [ThreadPool.step, Option.some.injEq] at h
    subst h
    exact ⟨hJ.shared, hJ.workers, hJ.started⟩
  | worker i =>
    obtain ⟨w, hw, hc⟩ := workerStep_cases h
    rcases hc with ⟨hpc, _, _, rfl⟩ | ⟨hpc, t, elem, rest, _, rfl⟩ |
      ⟨hpc, os, log, _, _, _, rfl⟩ | ⟨hpc, rfl⟩ | ⟨r, hpc, _, rfl⟩
    · refine ⟨hJ.shared, ?_, hJ.started⟩
      intro j w2 h2 hp2
      rcases set_lookup h2 with ⟨_, rfl⟩ | ⟨_, h3⟩
      · simp at hp2
      · exact hJ.workers j w2 h3 hp2
    · refine ⟨hJ.shared, ?_, hJ.started⟩
      intro j w2 h2 hp2
      rcases set_lookup h2 with ⟨_, rfl⟩ | ⟨_, h3⟩
      · simp at hp2
      · exact hJ.workers j w2 h3 hp2
    · refine ⟨hJ.shared, ?_, hJ.started⟩
      intro j w2 h2 hp2
      rcases set_lookup h2 with ⟨_, rfl⟩ | ⟨_, h3⟩
      · intro _
        exact hJ.shared
      · exact hJ.workers j w2 h3 hp2
    · refine ⟨hJ.shared, ?_, ?_⟩
      · intro j w2 h2 hp2
        rcases set_lookup h2 with ⟨_, rfl⟩ | ⟨_, h3⟩
        · simp at hp2
        · exact hJ.workers j w2 h3 hp2
      · intro e he hfresh
        rcases List.mem_append.1 he with he | he
        · exact hJ.started e he hfresh
        · simp at he
          subst he
          exact hJ.workers i w hw hpc hfresh
    · refine ⟨hJ.shared, ?_, hJ.started⟩
      intro j w2 h2 hp2
      rcases set_lookup h2 with ⟨_, rfl⟩ | ⟨_, h3⟩
      · simp at hp2
      · exact hJ.workers j w2 h3 hp2
  | destroy =>
    simp only [ThreadPool.step, ThreadPool.destroy] at h
    split at h
    · cases h
    · cases h
      exact ⟨hJ.shared, hJ.workers, hJ.started⟩
  | join =>
    simp only [ThreadPool.step, ThreadPool.joinNext] at h
    split at h
    · split at h
      · cases h
      · split at h
        · cases h
          exact ⟨hJ.shared, hJ.workers, hJ.started⟩
        · cases h
    · cases h

theorem prioSettled_run {P : CpuPriority} {old : List Dequeued}
    {sched : List Action} {pool pool' : ThreadPool} (hJ : PrioSettled P old pool)
    (hno : ∀ a ∈ sched, a.isSetCpuPriority = false)
    (h : ThreadPool.run DoWork pool sched = some pool') :
    PrioSettled P old pool' := by
  induction sched generalizing pool with
  | nil =>
    simp only [ThreadPool.run, Option.some.injEq] at h
    subst h
    exact hJ
  | cons a rest ih =>
    simp only [ThreadPool.run] at h
    cases hs : pool.step DoWork a with
    | none => simp [hs] at h
    | some next =>
      simp only [hs] at h
      exact ih (prioSettled_step hJ (hno a (List.mem_cons_self _ _)) hs)
        (fun b hb => hno b (List.mem_cons_of_mem _ hb)) h

theorem prioSettled_after_set {pool : ThreadPool} (hI : Inv DoWork pool)
    (P : CpuPriority) : PrioSettled P pool.dequeued (pool.SetCpuPriority P) := by
  refine ⟨rfl, ?_, ?_⟩
  · intro i w hw hpc hfresh
    have hb : w.inBody = true := by simp [Worker.inBody, hpc]
    exact absurd rfl (hfresh _ (hI.hold i w hw hb))
  · intro e he hfresh
    exact absurd rfl (hfresh _ (hI.started_deq e he))

/-- C5: let `SetCpuPriority(P)` return in a reachable state `mid`, and let any
schedule without a further `SetCpuPriority` follow. Then every `DoWork`
invocation on an item that had not been dequeued when `SetCpuPriority(P)`
returned starts with priority `P` in force on the worker's thread: the worker's
`current_priority` is `P`, and the last `port::SetCpuPriority` call on that
thread had argument `P`, or there was no such call and `P` is `kNormal`, the
priority the lambda takes a new thread to have. -/
theorem priority_convergence (DoWork : WorkItem → WorkItemResult → WorkItemResult)
    (name : String) (rn : Int) (rp : CpuPriority) (n : Int)
    (p : CpuPriority) (pool0 mid pool : ThreadPool) (before after : List Action)
    (P : CpuPriority)
    (h0 : (ThreadPool.ctor name rn rp).Initialize n p = some pool0)
    (hmid : ThreadPool.run DoWork pool0 before = some mid)
    (hno : ∀ a ∈ after, a.isSetCpuPriority = false)
    (hrun : ThreadPool.run DoWork (mid.SetCpuPriority P) after = some pool) :
    ∀ e ∈ pool.started, (∀ d ∈ mid.dequeued, d.ticket ≠ e.ticket) →
      e.current_priority = P ∧ appliedPriority e.os_priority = P ∧
      (e.os_priority = some P ∨ (e.os_priority = none ∧ P = CpuPriority.kNormal)) := by
  have hImid : Inv DoWork mid := inv_reachable h0 hmid
  have hJ := prioSettled_run (prioSettled_after_set hImid P) hno hrun
  have hI : Inv DoWork pool :=
    inv_run (inv_frame hImid mid.num_threads_ P) hrun
  intro e he hfresh
  have hc := hJ.started e he hfresh
  have ha := hI.started_prio e he
  rw [hc] at ha
  refine ⟨hc, ha, ?_⟩
  cases hos : e.os_priority with
  | none =>
    rw [hos] at ha
    exact Or.inr ⟨rfl, ha.symm⟩
  | some q =>
    rw [hos] at ha
    exact Or.inl (congrArg some ha)

/-- Witness of C5: the second sample item is dequeued after
`SetCpuPriority(kLow)` returned. -/
theorem priority_convergence_witness :
    (demoRaw.Initialize 1 CpuPriority.kHigh = some demoPool0 ∧
      ThreadPool.run demoDoWork demoPool0 prioBefore = some settlePool ∧
      (∀ a ∈ prioAfter, a.isSetCpuPriority = false) ∧
      ThreadPool.run demoDoWork (settlePool.SetCpuPriority CpuPriority.kLow) prioAfter
        = some prioPool) ∧
    (∀ e ∈ prioPool.started, (∀ d ∈ settlePool.dequeued, d.ticket ≠ e.ticket) →
      e.current_priority = CpuPriority.kLow ∧
      appliedPriority e.os_priority = CpuPriority.kLow ∧
      (e.os_priority = some CpuPriority.kLow ∨
        (e.os_priority = none ∧ CpuPriority.kLow = CpuPriority.kNormal))) :=
  ⟨⟨rfl, rfl, by decide, rfl⟩,
    priority_convergence demoDoWork "demo" 0 CpuPriority.kIdle 1 CpuPriority.kHigh
      demoPool0 settlePool prioPool prioBefore prioAfter CpuPriority.kLow rfl rfl
      (by decide) rfl⟩

/-- Witness of C3: two sample items submitted while the single worker of the
sample pool holds an earlier item. -/
theorem fifo_order_witness :
    (demoRaw.Initialize 1 CpuPriority.kHigh = some demoPool0 ∧
      ThreadPool.run demoDoWork demoPool0 fifoBefore = some fifoMid ∧
      ThreadPool.run demoDoWork fifoMid
        ([demoItem 1, demoItem 2].map Action.AddWorkItem ++ fifoRest) = some fifoPool ∧
      fifoPool.threads_.length = 1) ∧
    (fifoMid.submitted ++ [demoItem 1, demoItem 2] <+: fifoPool.submitted ∧
    fifoPool.dequeued.map Dequeued.item <+: fifoPool.submitted ∧
    fifoPool.dequeued.map Dequeued.ticket = List.range fifoPool.dequeued.length ∧
    ((fifoPool.dequeued.map Dequeued.item).drop fifoMid.submitted.length).take
        [demoItem 1, demoItem 2].length
      = [demoItem 1, demoItem 2].take
        (fifoPool.dequeued.length - fifoMid.submitted.length) ∧
    (fifoPool.threads_.length = 1 →
      fifoPool.started.map Started.item <+: fifoPool.submitted ∧
      fifoPool.started.map Started.ticket = List.range fifoPool.started.length ∧
      ((fifoPool.started.map Started.item).drop fifoMid.submitted.length).take
          [demoItem 1, demoItem 2].length
        = [demoItem 1, demoItem 2].take
          (fifoPool.started.length - fifoMid.submitted.length))) :=
  ⟨⟨rfl, rfl, rfl, rfl⟩,
    fifo_order demoDoWork "demo" 0 CpuPriority.kIdle 1 CpuPriority.kHigh
      demoPool0 fifoMid fifoPool fifoBefore [demoItem 1, demoItem 2] fifoRest
      rfl rfl rfl⟩

/-- Witness of C7: `SetCpuPriority(kLow)` on the sample pool in mid-run,
followed by worker steps. -/
theorem get_after_set_witness :
    ((∀ a ∈ prioAfter, a.isSetCpuPriority = false) ∧
      ThreadPool.run demoDoWork (settlePool.SetCpuPriority CpuPriority.kLow) prioAfter
        = some prioPool) ∧
    ((settlePool.SetCpuPriority CpuPriority.kLow).GetCpuPriority.1 = CpuPriority.kLow ∧
    prioPool.GetCpuPriority.1 = CpuPriority.kLow ∧
    settlePool.SetCpuPriority CpuPriority.kLow
      = { settlePool with threads_cpu_priority_ := CpuPriority.kLow } ∧
    (settlePool.SetCpuPriority CpuPriority.kLow).num_threads_ = settlePool.num_threads_ ∧
    (settlePool.SetCpuPriority CpuPriority.kLow).threads_ = settlePool.threads_ ∧
    (settlePool.SetCpuPriority CpuPriority.kLow).work_items_ = settlePool.work_items_ ∧
    (settlePool.SetCpuPriority CpuPriority.kLow).name_ = settlePool.name_ ∧
    settlePool.GetCpuPriority.2 = settlePool ∧
    prioPool.GetCpuPriority.2 = prioPool) :=
  ⟨⟨by decide, rfl⟩,
    get_after_set demoDoWork settlePool CpuPriority.kLow prioAfter prioPool
      (by decide) rfl⟩

/-- Witness of C8: the sample pool with one worker, across a schedule with two
`UpdateMaxThreads` calls, and one more call `UpdateMaxThreads(9)`. -/
theorem updateMaxThreads_frame_witness :
    (demoRaw.Initialize 1 CpuPriority.kHigh = some demoPool0 ∧
      ThreadPool.run demoDoWork demoPool0 resizeSchedule = some resizePool) ∧
    ((resizePool.UpdateMaxThreads 9).num_threads_ = 9 ∧
    resizePool.UpdateMaxThreads 9 = { resizePool with num_threads_ := 9 } ∧
    (resizePool.UpdateMaxThreads 9).threads_ = resizePool.threads_ ∧
    (resizePool.UpdateMaxThreads 9).work_items_ = resizePool.work_items_ ∧
    (resizePool.UpdateMaxThreads 9).threads_cpu_priority_
      = resizePool.threads_cpu_priority_ ∧
    (resizePool.UpdateMaxThreads 9).name_ = resizePool.name_ ∧
    (resizePool.threads_.length : Int) = 1 ∧
    ((resizePool.UpdateMaxThreads 9).threads_.length : Int) = 1) :=
  ⟨⟨rfl, rfl⟩,
    updateMaxThreads_frame demoDoWork "demo" 0 CpuPriority.kIdle 1 CpuPriority.kHigh
      demoPool0 resizePool resizeSchedule 9 rfl rfl⟩

end ThreadPoolModel
